import Mathlib

/-! # Dynamic range processor history panel

A shallow embedding of `src/effects/DynamicRangeProcessorHistoryPanel.cpp`:
the poll tick `OnTimer`, `InitializeForPlayback`, the two subscription
callbacks installed by the constructor, and `OnPaint` up to its drawing calls,
with the helpers `GetDisplayPixel`, `GetDbRange` and `InsertCrossings`.

Conventions of the embedding.

* `float` and `double` values are rationals. The operations of
  `GetDisplayPixel` and of `InsertCrossings` are rounded after each step by a
  `Rounding`, which is `ieeeArithmetic` for the program (round to nearest,
  ties to even, 24 and 53 significant bits) and `exactArithmetic` for
  statements about exact arithmetic; infinities, NaN, overflow and subnormal
  numbers are not represented. The other floating-point operations
  (`GetDbRange`, the elapsed times, the queue size) are exact.
* A conversion of a floating-point value to `size_t` that is out of range, and
  an exception thrown by a library call, make the operation return `none`.
* A `std::chrono::steady_clock::time_point` is an integer count of clock
  ticks, `ticksPerSecond` of them in a second.
* Smart pointers and optionals (`mHistory`, `mSync`, `mOutputQueue`) are
  `Option`s; dereferencing an empty one makes the operation return `none`.
* The class `DynamicRangeProcessorHistory` is declared outside the translated
  file; the panel code is embedded over an arbitrary implementation of its
  interface (`HistoryOps`).
* Constants declared outside the translated file (`maxTimeSeconds`,
  `minHeight`, `minRangeDb`) are arguments of the functions that use them.
* An erasure or a read outside the bounds of a vector makes the operation
  return `none`.
-/

namespace DynamicRangeProcessorHistoryPanel

/-! ## Data model -/

/-- Element of a history segment, with the fields that `OnPaint` reads
(`packet.time`, `packet.target`, `packet.follower`, `packet.input`,
`packet.output`). -/
structure Packet where
  time : ℚ
  target : ℚ
  follower : ℚ
  input : ℚ
  output : ℚ
deriving DecidableEq

/-- The struct `ClockSynchronization`, brace-initialised in `OnTimer` from
`firstPacketTime` and `start`; `now` is assigned on every data tick. -/
structure ClockSynchronization where
  firstPacketTime : ℚ
  start : Int
  now : Int
deriving DecidableEq

/-- The payload of the processing-settings event (`evt->sampleRate`). -/
structure InitializeProcessingSettings where
  sampleRate : ℚ
deriving DecidableEq

/-- The interface of `DynamicRangeProcessorHistory` used by the panel: the
constant `maxTimeSeconds`, the constructor from a sample rate, `Push`,
`IsEmpty`, `GetSegments` and `BeginNewSegment`. The type `H` is the state of a
history object and `P` the type of the packets carried by the queue, which is
declared outside the translated file as well: `packetBufferMaxSize` is the
`max_size()` of a `std::vector` of such packets, the largest size that
`mPacketBuffer.reserve` accepts. -/
structure HistoryOps (H P : Type) where
  maxTimeSeconds : ℚ
  packetBufferMaxSize : Nat
  create : ℚ → H
  Push : H → List P → H
  IsEmpty : H → Bool
  GetSegments : H → List (List Packet)
  BeginNewSegment : H → H

/-- Modelled from the spec: the bounded queue `DynamicRangeProcessorOutputPacketQueue`
(its class is not part of the translated file). It has a capacity fixed at
construction and holds the packets pushed and not yet popped, oldest first.
The field `id` is the identity of the queue object: the number of queues
constructed before it. -/
structure OutputPacketQueue (P : Type) where
  id : Nat
  capacity : Nat
  items : List P
deriving DecidableEq

/-- Modelled from the spec: `Get` pops the oldest packet, and reports `false`
(here `none`) when the queue is empty. -/
def OutputPacketQueue.Get {P : Type} (q : OutputPacketQueue P) :
    Option (P × OutputPacketQueue P) :=
  match q.items with
  | [] => none
  | p :: rest => some (p, { q with items := rest })

/-- Modelled from the spec: `Put` appends a packet unless the queue is full, in
which case the packet is dropped and `false` is reported. -/
def OutputPacketQueue.Put {P : Type} (q : OutputPacketQueue P) (p : P) :
    Bool × OutputPacketQueue P :=
  if q.items.length < q.capacity then (true, { q with items := q.items ++ [p] })
  else (false, q)

/-- What the panel uses of the `CompressorInstance` it refers to:
`GetLatencyMs()`, `GetSampleRate()`, and the queue last handed over by
`SetOutputQueue` (recorded by its identity). -/
structure CompressorInstance where
  latencyMs : ℚ
  sampleRate : Option ℚ
  outputQueue : Option Nat
deriving DecidableEq

/-- The state of the panel. `mTimer` is `some period` while the poll timer
runs; `refreshCount` counts the repaint requests (`Refresh(false)` followed by
`Update()`); `queuesConstructed` counts the queue objects built so far. -/
structure Panel (H P : Type) where
  mCompressorInstance : CompressorInstance
  mHistory : Option H
  mSync : Option ClockSynchronization
  mOutputQueue : Option (OutputPacketQueue P)
  mPacketBuffer : List P
  mPlaybackAboutToStart : Bool
  mTimer : Option Nat
  refreshCount : Nat
  queuesConstructed : Nat

/-! ## Constants -/

/-- The constant `timerPeriodMs = 1000 / 200`. -/
def timerPeriodMs : Nat := 1000 / 200

/-- The constant `leastPacketSize = 100` of `InitializeForPlayback`. -/
def leastPacketSize : Nat := 100

/-- Ticks of the steady clock in one second (nanosecond resolution). -/
def ticksPerSecond : Nat := 1000000000

/-! ## The poll tick -/

/-- The loop `while (mOutputQueue->Get(packet)) mPacketBuffer.push_back(packet);`
started on queue `q` with buffer `buf`; returns the queue and the buffer at the
exit of the loop. -/
def drainQueue {P : Type} (q : OutputPacketQueue P) (buf : List P) :
    OutputPacketQueue P × List P :=
  match _hget : q.Get with
  | none => (q, buf)
  | some (p, q') => drainQueue q' (buf ++ [p])
termination_by q.items.length
decreasing_by
  unfold OutputPacketQueue.Get at _hget
  split at _hget
  · cases _hget
  · rename_i hitems
    cases _hget
    simp [hitems]

/-- The expression `mHistory->GetSegments().front().front()`: the first packet
of the oldest segment; `none` when there is no segment or the oldest one is
empty. -/
def frontFront (segments : List (List Packet)) : Option Packet :=
  match segments with
  | [] => none
  | segment :: _ => segment.head?

/-- The method `OnTimer`, at clock reading `now`. -/
def OnTimer {H P : Type} (ops : HistoryOps H P) (now : Int) (p : Panel H P) :
    Option (Panel H P) :=
  match p.mOutputQueue, p.mHistory with
  | some q, some h =>
    -- mPacketBuffer.clear(); while (mOutputQueue->Get(packet)) ...
    let drained := drainQueue q []
    -- mHistory->Push(mPacketBuffer);
    let h1 := ops.Push h drained.2
    let p1 : Panel H P :=
      { p with mPacketBuffer := drained.2, mOutputQueue := some drained.1, mHistory := some h1 }
    if ops.IsEmpty h1 then
      some p1
    else
      -- if (!mSync) mSync.emplace(ClockSynchronization { first + latency, now });
      let emplaced : Option ClockSynchronization :=
        match p1.mSync with
        | some s => some s
        | none =>
          match frontFront (ops.GetSegments h1) with
          | some packet =>
            some { firstPacketTime := packet.time + p1.mCompressorInstance.latencyMs / 1000,
                   start := now, now := 0 }
          | none => none
      match emplaced with
      | none => none
      | some s =>
        -- mPlaybackAboutToStart = false; mSync->now = now; Refresh(false); Update();
        some { p1 with
                mSync := some { s with now := now }
                mPlaybackAboutToStart := false
                refreshCount := p1.refreshCount + 1 }
  | _, _ => none

/-! ## Playback lifecycle -/

/-- The number of values of `size_t`, which has 64 bits. -/
def sizeTypeRange : Nat := 2 ^ 64

/-- The local `maxQueueSize` of `InitializeForPlayback`:
`maxTimeSeconds * sampleRate / leastPacketSize` converted to `size_t`. The
conversion truncates towards zero; it is undefined, here `none`, unless the
truncated value is a value of `size_t`, that is, unless the quotient lies
strictly between -1 and 2^64. -/
def maxQueueSize {H P : Type} (ops : HistoryOps H P) (sampleRate : ℚ) : Option Nat :=
  if -1 < ops.maxTimeSeconds * sampleRate / leastPacketSize ∧
      ops.maxTimeSeconds * sampleRate / leastPacketSize < sizeTypeRange then
    some (Rat.floor (ops.maxTimeSeconds * sampleRate / leastPacketSize)).toNat
  else none

/-- The method `InitializeForPlayback(instance, sampleRate)`, where `instance`
is the panel's own `mCompressorInstance`. The result is `none` when the
conversion to `size_t` is undefined and when `mPacketBuffer.reserve(maxQueueSize)`
throws `std::length_error`, which it does for a size above `max_size()`; the
queue is then not built, the timer not started and the flag not set. -/
def InitializeForPlayback {H P : Type} (ops : HistoryOps H P) (p : Panel H P)
    (sampleRate : ℚ) : Option (Panel H P) :=
  -- mSync.reset(); mHistory.emplace(sampleRate);
  match maxQueueSize ops sampleRate with
  | none => none
  | some size =>
    -- mPacketBuffer.reserve(maxQueueSize);
    if size ≤ ops.packetBufferMaxSize then
      -- std::make_unique<DynamicRangeProcessorOutputPacketQueue>(maxQueueSize)
      let queue : OutputPacketQueue P :=
        { id := p.queuesConstructed, capacity := size, items := [] }
      some
        { mCompressorInstance := { p.mCompressorInstance with outputQueue := some queue.id }
          mHistory := some (ops.create sampleRate)
          mSync := none
          mOutputQueue := some queue
          mPacketBuffer := p.mPacketBuffer
          mPlaybackAboutToStart := true
          mTimer := some timerPeriodMs
          refreshCount := p.refreshCount + 1
          queuesConstructed := p.queuesConstructed + 1 }
    else none

/-- The callback of `mInitializeProcessingSettingsSubscription`: a settings
event with a value (re)initialises playback, an empty one stops the timer. -/
def OnInitializeProcessingSettings {H P : Type} (ops : HistoryOps H P) (p : Panel H P)
    (evt : Option InitializeProcessingSettings) : Option (Panel H P) :=
  match evt with
  | some settings => InitializeForPlayback ops p settings.sampleRate
  | none => some { p with mTimer := none }

/-- The callback of `mRealtimeResumeSubscription`. -/
def OnRealtimeResume {H P : Type} (ops : HistoryOps H P) (p : Panel H P) : Panel H P :=
  match p.mHistory with
  | some h => { p with mHistory := some (ops.BeginNewSegment h) }
  | none => p

/-! ## Elapsed time in `OnPaint` -/

/-- The local `elapsedTimeSinceFirstPacket` of `OnPaint`:
`duration<float>(mSync->now - mSync->start).count()`, in seconds. -/
def elapsedTimeSinceFirstPacket (sync : ClockSynchronization) : ℚ :=
  ((sync.now - sync.start : Int) : ℚ) / ticksPerSecond

/-- The value `elapsedTimeSinceFirstPacket - (packet.time - mSync->firstPacketTime)`
that `OnPaint` computes for a packet. -/
def elapsedSincePacket (sync : ClockSynchronization) (packet : Packet) : ℚ :=
  elapsedTimeSinceFirstPacket sync - (packet.time - sync.firstPacketTime)

/-! ## Event dispatch -/

/-- The events that reach the panel between its construction and its
destruction: the processing-settings publication (with a value on playback
initialisation, empty on stop), the realtime-resume publication, a timer
notification with the clock reading taken by `OnTimer`, and a packet put on
the queue by the audio thread. -/
inductive Event (P : Type) where
  | processingSettings (evt : Option InitializeProcessingSettings)
  | realtimeResume
  | timer (now : Int)
  | produce (packet : P)

/-- Whether the event is a processing-settings publication carrying a value,
that is, a call of `InitializeForPlayback`. -/
def Event.isInitialization {P : Type} : Event P → Bool
  | .processingSettings (some _) => true
  | _ => false

/-- Delivery of one event. A timer notification runs `OnTimer` only while
`mTimer` is running. Modelled from the spec: a produced packet is put on the
queue the panel last installed (the producer side of the queue is outside the
translated file). -/
def dispatch {H P : Type} (ops : HistoryOps H P) (p : Panel H P) :
    Event P → Option (Panel H P)
  | .processingSettings evt => OnInitializeProcessingSettings ops p evt
  | .realtimeResume => some (OnRealtimeResume ops p)
  | .timer now =>
    match p.mTimer with
    | some _ => OnTimer ops now p
    | none => some p
  | .produce packet =>
    match p.mOutputQueue with
    | some q => some { p with mOutputQueue := some (q.Put packet).2 }
    | none => some p

/-- Delivery of a sequence of events, in order. -/
def run {H P : Type} (ops : HistoryOps H P) (p : Panel H P) :
    List (Event P) → Option (Panel H P)
  | [] => some p
  | e :: es =>
    match dispatch ops p e with
    | some p1 => run ops p1 es
    | none => none

/-- Whether the clock readings of the timer notifications of a sequence of
events never decrease, `last` being the latest reading taken before the
sequence. `OnTimer` reads `std::chrono::steady_clock::now()`, and the readings
of that clock never decrease. -/
def steadyReadings {P : Type} : Int → List (Event P) → Bool
  | _, [] => true
  | last, .timer now :: es => decide (last ≤ now) && steadyReadings now es
  | last, .processingSettings _ :: es => steadyReadings last es
  | last, .realtimeResume :: es => steadyReadings last es
  | last, .produce _ :: es => steadyReadings last es

/-! ## A history following the spec -/

/-- Modelled from the spec: the History component (the class
`DynamicRangeProcessorHistory` is not part of the translated file). It owns
the segments, oldest first, and remembers whether the next pushed packets
start a new segment. -/
structure SpecHistory where
  segments : List (List Packet)
  beginNewSegment : Bool
deriving DecidableEq

/-- Modelled from the spec: appending packets to the newest segment of a
history, creating one if none exists or a new segment was requested. -/
def SpecHistory.append (h : SpecHistory) (packets : List Packet) : List (List Packet) :=
  if h.beginNewSegment then h.segments ++ [packets]
  else
    match h.segments.reverse with
    | [] => [packets]
    | newest :: older => older.reverse ++ [newest ++ packets]

/-- Modelled from the spec: trimming with `cutoff = latestPacketTime - maxTimeSeconds`;
segments entirely older than the cutoff are dropped, then the packets older
than the cutoff at the front of the oldest remaining segment. -/
def SpecHistory.trim (cutoff : ℚ) (segments : List (List Packet)) : List (List Packet) :=
  match segments.dropWhile (fun segment => segment.all (fun packet => decide (packet.time < cutoff))) with
  | [] => []
  | oldest :: newer => oldest.dropWhile (fun packet => decide (packet.time < cutoff)) :: newer

/-- Modelled from the spec: `push` appends to the newest segment, then trims;
it changes nothing when called with an empty input. -/
def SpecHistory.push (maxTimeSeconds : ℚ) (h : SpecHistory) (packets : List Packet) :
    SpecHistory :=
  match packets.getLast? with
  | none => h
  | some latest =>
    { segments := SpecHistory.trim (latest.time - maxTimeSeconds) (h.append packets)
      beginNewSegment := false }

/-- Modelled from the spec: the History operations, for a history window of
`maxTimeSeconds`; the queue carries history packets. A packet of five
single-precision values occupies 20 bytes, so that a vector holds at most
`(2^63 - 1) / 20` of them. -/
def specHistoryOps (maxTimeSeconds : ℚ) : HistoryOps SpecHistory Packet where
  maxTimeSeconds := maxTimeSeconds
  packetBufferMaxSize := 461168601842738790
  create := fun _ => { segments := [], beginNewSegment := false }
  Push := SpecHistory.push maxTimeSeconds
  IsEmpty := fun h => h.segments.all List.isEmpty
  GetSegments := fun h => h.segments
  BeginNewSegment := fun h => { h with beginNewSegment := true }

/-! ## Sample data -/

/-- A history packet at the given time. -/
def samplePacket (time : ℚ) : Packet :=
  { time := time, target := -6, follower := -4, input := -3, output := -7 }

/-- The spec history with a window of 2.5 seconds. -/
def sampleOps : HistoryOps SpecHistory Packet := specHistoryOps (5 / 2)

/-- A panel right after playback initialisation at 44100 Hz, with a reported
latency of `latencyMs`, whose queue holds the packets `queued`. -/
def sampleAwaiting (latencyMs : ℚ) (queued : List Packet) : Panel SpecHistory Packet :=
  { mCompressorInstance := { latencyMs := latencyMs, sampleRate := some 44100, outputQueue := some 0 }
    mHistory := some { segments := [], beginNewSegment := false }
    mSync := none
    mOutputQueue := some { id := 0, capacity := 1102, items := queued }
    mPacketBuffer := []
    mPlaybackAboutToStart := true
    mTimer := some 5
    refreshCount := 1
    queuesConstructed := 1 }

/-- The panel `sampleAwaiting 20 [samplePacket (1 / 4)]` after a tick at clock
reading 9000, with the packet at 0.5 s put on the queue since. -/
def sampleSynchronized : Panel SpecHistory Packet :=
  { mCompressorInstance := { latencyMs := 20, sampleRate := some 44100, outputQueue := some 0 }
    mHistory := some { segments := [[samplePacket (1 / 4)]], beginNewSegment := false }
    mSync := some { firstPacketTime := 27 / 100, start := 9000, now := 9000 }
    mOutputQueue := some { id := 0, capacity := 1102, items := [samplePacket (1 / 2)] }
    mPacketBuffer := [samplePacket (1 / 4)]
    mPlaybackAboutToStart := false
    mTimer := some 5
    refreshCount := 2
    queuesConstructed := 1 }

/-! ## Pixel position and crossings -/

/-- A `wxPoint2DDouble`, with its members `m_x` and `m_y`. -/
structure Point where
  m_x : ℚ
  m_y : ℚ
deriving DecidableEq

/-- Rounding of a rational to the nearest integer, a tie going to the even
one. -/
def roundHalfEven (q : ℚ) : Int :=
  if q - (Rat.floor q : ℚ) < 1 / 2 then Rat.floor q
  else if 1 / 2 < q - (Rat.floor q : ℚ) then Rat.floor q + 1
  else if Rat.floor q % 2 = 0 then Rat.floor q
  else Rat.floor q + 1

/-- Rounding of a positive rational to the nearest binary floating-point
number with `precision` significant bits, ties to even: with `2^e ≤ x < 2^(e+1)`
the result is the multiple of `2^(e - (precision - 1))` nearest to `x`. The
range of the exponent is not bounded (no overflow, no subnormal numbers). -/
def roundPositive (precision : Nat) (x : ℚ) : ℚ :=
  (roundHalfEven (x / (2 : ℚ) ^ (Int.log 2 x - ((precision : Int) - 1))) : ℚ) *
    (2 : ℚ) ^ (Int.log 2 x - ((precision : Int) - 1))

/-- Rounding to the nearest binary floating-point number with `precision`
significant bits, ties to even (the default rounding of IEEE 754). -/
def roundBinary (precision : Nat) (x : ℚ) : ℚ :=
  if 0 < x then roundPositive precision x
  else if x < 0 then -roundPositive precision (-x)
  else 0

/-- The rounding applied to the result of an operation on `float` values
(`toFloat`) and on `double` values (`toDouble`). -/
structure Rounding where
  toFloat : ℚ → ℚ
  toDouble : ℚ → ℚ

/-- The rounding of the program: single precision has 24 significant bits and
double precision 53. -/
def ieeeArithmetic : Rounding :=
  { toFloat := roundBinary 24, toDouble := roundBinary 53 }

/-- No rounding: exact arithmetic. -/
def exactArithmetic : Rounding :=
  { toFloat := fun x => x, toDouble := fun x => x }

/-- The constant `displayDelay = 0.2f` of `GetDisplayPixel`: the decimal 0.2
rounded to single precision. -/
def displayDelay (fp : Rounding) : ℚ := fp.toFloat (1 / 5)

/-- The function `GetDisplayPixel(elapsedSincePacket, panelWidth)`. The constant
`DynamicRangeProcessorHistory::maxTimeSeconds`, declared outside the
translated file, is an argument. The subtraction
`elapsedSincePacket - displayDelay` is a single-precision operation; the
product `1. * maxTimeSeconds`, the two divisions and the subtraction from
`panelWidth - 1` (an `int`) are double-precision operations. Each is rounded. -/
def GetDisplayPixel (fp : Rounding) (maxTimeSeconds elapsedSincePacket : ℚ)
    (panelWidth : Int) : ℚ :=
  let secondsPerPixel := fp.toDouble (fp.toDouble (1 * maxTimeSeconds) / panelWidth)
  fp.toDouble (((panelWidth - 1 : Int) : ℚ) -
    fp.toDouble (fp.toFloat (elapsedSincePacket - displayDelay fp) / secondsPerPixel))

/-- The function `GetDbRange(height)`. The constants `minHeight` and
`minRangeDb` of the panel class, declared outside the translated file, are the
first two arguments. -/
def GetDbRange (minHeight : Int) (minRangeDb : ℚ) (height : Int) : ℚ :=
  let factor := max 1 (1 * (height : ℚ) / minHeight)
  factor * minRangeDb

/-- The divisor `y2_b - y0_b + y0_a - y2_a` in the computation of `x1`: three
double-precision operations, from left to right, each rounded. -/
def crossingDivisor (fp : Rounding) (y0_a y0_b y2_a y2_b : ℚ) : ℚ :=
  fp.toDouble (fp.toDouble (fp.toDouble (y2_b - y0_b) + y0_a) - y2_a)

/-- The point `(x1, y)` that `InsertCrossings` emplaces at a crossing between
the previous points `(x0, y0_a)`, `(x0, y0_b)` and the current points
`(x2, y2_a)`, `(x2, y2_b)`, every double-precision operation being rounded.
Where the program divides by zero its quotient is infinite or not a number;
the embedding has no such values and the quotient is 0 there. -/
def crossingPoint (fp : Rounding) (x0 y0_a y0_b x2 y2_a y2_b : ℚ) : Point :=
  let x1 := fp.toDouble (x0 +
    fp.toDouble (fp.toDouble (fp.toDouble (x2 - x0) * fp.toDouble (y0_a - y0_b)) /
      crossingDivisor fp y0_a y0_b y2_a y2_b))
  let y := fp.toDouble (y0_a +
    fp.toDouble (fp.toDouble (fp.toDouble (x1 - x0) / fp.toDouble (x2 - x0)) *
      fp.toDouble (y2_a - y0_a)))
  { m_x := x1, m_y := y }

/-- The test `aWasBelow.has_value() && *aWasBelow != aIsBelow`. -/
def isCrossing (aWasBelow : Option Bool) (aIsBelow : Bool) : Bool :=
  match aWasBelow with
  | some wasBelow => wasBelow != aIsBelow
  | none => false

/-- Whether the next iteration of the loop of `InsertCrossings` detects a
crossing (1) or not (0); used to measure the progress of the loop. -/
def crossingPending (aWasBelow : Option Bool) (restA restB : List Point) : Nat :=
  match restA, restB with
  | a :: _, b :: _ => if isCrossing aWasBelow (decide (a.m_y < b.m_y)) then 1 else 0
  | _, _ => 0

/-- The loop `while (it != A.end())` of `InsertCrossings`. The vector `A` is
`doneA ++ restA` with the iterator `it` on the head of `restA`, and likewise
`B` and `jt`. After `it = A.emplace(it, x1, y)++` the iterator is on the
emplaced point (the post-increment acts on a temporary), so the `++it` that
ends the iteration puts it back on the point just examined, which the next
iteration examines again. Dereferencing `jt` at the end of `B` gives `none`. -/
def InsertCrossingsLoop (fp : Rounding) (aWasBelow : Option Bool) (x0 y0_a y0_b : ℚ)
    (doneA doneB restA restB : List Point) : Option (List Point × List Point) :=
  match restA, restB with
  | [], _ => some (doneA, doneB ++ restB)
  | _ :: _, [] => none
  | a :: as, b :: bs =>
    let x2 := a.m_x
    let y2_a := a.m_y
    let y2_b := b.m_y
    let aIsBelow := decide (y2_a < y2_b)
    if _hcross : isCrossing aWasBelow aIsBelow = true then
      let inserted := crossingPoint fp x0 y0_a y0_b x2 y2_a y2_b
      InsertCrossingsLoop fp (some aIsBelow) x2 y2_a y2_b
        (doneA ++ [inserted]) (doneB ++ [inserted]) (a :: as) (b :: bs)
    else
      InsertCrossingsLoop fp (some aIsBelow) x2 y2_a y2_b (doneA ++ [a]) (doneB ++ [b]) as bs
termination_by 2 * restA.length + crossingPending aWasBelow restA restB
decreasing_by
  · have h0 : crossingPending (some (decide (a.m_y < b.m_y))) (a :: as) (b :: bs) = 0 := by
      simp [crossingPending, isCrossing]
    have h1 : crossingPending aWasBelow (a :: as) (b :: bs) = 1 := by
      simp only [crossingPending]
      rw [if_pos _hcross]
    simp only [h0, h1]
    omega
  · have h0 : crossingPending (some (decide (a.m_y < b.m_y))) as bs ≤ 1 := by
      unfold crossingPending
      split
      · split <;> simp
      · simp
    have h1 : crossingPending aWasBelow (a :: as) (b :: bs) = 0 := by
      simp only [crossingPending]
      rw [if_neg _hcross]
    simp only [h1, List.length_cons]
    omega

/-- The function `InsertCrossings(A, B)`; the result is the pair of vectors at
the return. The `assert` is compiled out; lists of different sizes are
returned as they are. -/
def InsertCrossings (fp : Rounding) (A B : List Point) : Option (List Point × List Point) :=
  if A.length ≠ B.length then some (A, B)
  else InsertCrossingsLoop fp none 0 0 0 [] [] A B

/-! ## Crossings, described list-wise -/

/-- For each index of `A` and `B`, the point to be inserted before it, if any:
a point is inserted before an index when the predicate `A[i].y < B[i].y`
differs from its value at the index before, and it is the crossing point of
the two pairs of points. The arguments `aWasBelow`, `x0`, `y0_a`, `y0_b`
describe the index before the head of the lists. -/
def insertedPoints (fp : Rounding) (aWasBelow : Option Bool) (x0 y0_a y0_b : ℚ) :
    List Point → List Point → List (Option Point)
  | a :: as, b :: bs =>
    (if isCrossing aWasBelow (decide (a.m_y < b.m_y)) then
        some (crossingPoint fp x0 y0_a y0_b a.m_x a.m_y b.m_y)
      else none) ::
      insertedPoints fp (some (decide (a.m_y < b.m_y))) a.m_x a.m_y b.m_y as bs
  | _, _ => []

/-- The list `points` with, before each of its elements, the point of `inserted`
at the same index when there is one. -/
def weave : List (Option Point) → List Point → List Point
  | o :: os, a :: as => o.toList ++ a :: weave os as
  | _, points => points

/-- The number of consecutive index pairs at which a list of truth values
changes value. -/
def changes : List Bool → Nat
  | b0 :: b1 :: rest => (if b0 = b1 then 0 else 1) + changes (b1 :: rest)
  | _ => 0

/-- The truth values of `A[i].y < B[i].y`, index by index. -/
def belowFlags (A B : List Point) : List Bool :=
  List.zipWith (fun a b => decide (a.m_y < b.m_y)) A B

/-! ## Painting -/

/-- The counters `lastInvisibleLeft` and `firstInvisibleRight` at the end of the
`std::transform` of `OnPaint`: the first is incremented for each pixel
position `x < 0`, the second for each `x < width`. -/
def countInvisible (width : Int) (xs : List ℚ) : Int × Int :=
  xs.foldl
    (fun counters x =>
      (if x < 0 then counters.1 + 1 else counters.1,
        if x < (width : ℚ) then counters.2 + 1 else counters.2))
    (0, 0)

/-- The values `std::max<int>(--lastInvisibleLeft, 0)` and
`std::min<int>(++firstInvisibleRight, mX.size())`. -/
def visibleRange (width : Int) (xs : List ℚ) : Int × Int :=
  let counters := countInvisible width xs
  (max (counters.1 - 1) 0, min (counters.2 + 1) (xs.length : Int))

/-- The call `v.erase(v.begin() + first, v.begin() + last)`; `none` unless
`0 ≤ first ≤ last ≤ v.size()`. -/
def eraseRange (v : List ℚ) (first last : Int) : Option (List ℚ) :=
  if 0 ≤ first ∧ first ≤ last ∧ last ≤ (v.length : Int) then
    some (v.take first.toNat ++ v.drop last.toNat)
  else none

/-- The two erasures of `OnPaint` on the pixel positions `mX`:
`mX.erase(mX.begin() + firstInvisibleRight, mX.end())` and then
`mX.erase(mX.begin(), mX.begin() + lastInvisibleLeft)`. -/
def trimToVisible (width : Int) (xs : List ℚ) : Option (List ℚ) :=
  match eraseRange xs (visibleRange width xs).2 (xs.length : Int) with
  | some kept => eraseRange kept 0 (visibleRange width xs).1
  | none => none

/-- The reads `segment[segmentIndex++]` of the `std::for_each` over `mX`, from
the given `segmentIndex`: each pixel position with the packet read for it;
`none` when an index is out of bounds. -/
def readSegment (segment : List Packet) : Int → List ℚ → Option (List (ℚ × Packet))
  | _, [] => some []
  | segmentIndex, x :: xs =>
    if 0 ≤ segmentIndex then
      match segment.get? segmentIndex.toNat with
      | some packet =>
        match readSegment segment (segmentIndex + 1) xs with
        | some rest => some ((x, packet) :: rest)
        | none => none
      | none => none
    else none

/-- The vectors of the panel after the body of the segment loop of `OnPaint`. -/
structure SegmentPlot where
  mX : List ℚ
  mTarget : List Point
  mActual : List Point
  mInput : List Point
  mOutput : List Point
deriving DecidableEq

/-- The body of the loop `for (const auto& segment : segments)` of `OnPaint`, up
to the drawing calls. The result is `some none` when the segment is skipped
(`continue`), and `none` when an erasure or a read is out of bounds. -/
def paintSegment (fp : Rounding) (maxTimeSeconds dbPerPixel : ℚ) (width : Int)
    (mShowOvershoot mShowUndershoot : Bool) (sync : ClockSynchronization)
    (segment : List Packet) : Option (Option SegmentPlot) :=
  let xs := segment.map
    (fun packet => GetDisplayPixel fp maxTimeSeconds (elapsedSincePacket sync packet) width)
  match trimToVisible width xs with
  | none => none
  | some mX =>
    if mX.length < 2 then some none
    else
      match readSegment segment (visibleRange width xs).1 mX with
      | none => none
      | some read =>
        let mTarget := read.map (fun r => { m_x := r.1, m_y := -r.2.target / dbPerPixel : Point })
        let mActual := read.map (fun r => { m_x := r.1, m_y := -r.2.follower / dbPerPixel : Point })
        let mInput := read.map (fun r => { m_x := r.1, m_y := -r.2.input / dbPerPixel : Point })
        let mOutput := read.map (fun r => { m_x := r.1, m_y := -r.2.output / dbPerPixel : Point })
        if mShowOvershoot || mShowUndershoot then
          match InsertCrossings fp mActual mTarget with
          | some crossed =>
            some (some { mX := mX, mTarget := crossed.2, mActual := crossed.1,
                         mInput := mInput, mOutput := mOutput })
          | none => none
        else
          some (some { mX := mX, mTarget := mTarget, mActual := mActual,
                       mInput := mInput, mOutput := mOutput })

/-- The segment loop of `OnPaint` over the segments of the history. -/
def paintSegments (fp : Rounding) (maxTimeSeconds dbPerPixel : ℚ) (width : Int)
    (mShowOvershoot mShowUndershoot : Bool) (sync : ClockSynchronization) :
    List (List Packet) → Option (List (Option SegmentPlot))
  | [] => some []
  | segment :: segments =>
    match paintSegment fp maxTimeSeconds dbPerPixel width mShowOvershoot mShowUndershoot sync
        segment with
    | some plot =>
      match paintSegments fp maxTimeSeconds dbPerPixel width mShowOvershoot mShowUndershoot sync
          segments with
      | some plots => some (plot :: plots)
      | none => none
    | none => none

/-- What `OnPaint` puts on the panel besides the background, the legend and the
frame: either the idle state, with or without the text "awaiting playback", or
the plots of the segments. -/
inductive Painted where
  | idle (awaitingPlaybackText : Bool)
  | segments (plots : List (Option SegmentPlot))
deriving DecidableEq

/-- The method `OnPaint`, for a panel of size `width` by `height` with the
members `mShowOvershoot` and `mShowUndershoot` as given. The constants
`minHeight` and `minRangeDb` are arguments. -/
def OnPaint {H P : Type} (fp : Rounding) (ops : HistoryOps H P) (minHeight : Int)
    (minRangeDb : ℚ) (width height : Int) (mShowOvershoot mShowUndershoot : Bool)
    (p : Panel H P) : Option Painted :=
  match p.mHistory, p.mSync with
  | some h, some sync =>
    let rangeDb := GetDbRange minHeight minRangeDb height
    let dbPerPixel := rangeDb / height
    match paintSegments fp ops.maxTimeSeconds dbPerPixel width mShowOvershoot mShowUndershoot
        sync (ops.GetSegments h) with
    | some plots => some (Painted.segments plots)
    | none => none
  | _, _ =>
    -- if (!mHistory || !mSync) { if (!mPlaybackAboutToStart) DrawText(...); return; }
    some (Painted.idle (!p.mPlaybackAboutToStart))

/-- A segment of six packets, at times 0 to 4 seconds. -/
def sampleSegment : List Packet :=
  [samplePacket 0, samplePacket (1 / 4), samplePacket 1, samplePacket 3, samplePacket (7 / 2),
    samplePacket 4]

/-- A synchronization three seconds after its start, first packet at time 0. -/
def samplePaintSync : ClockSynchronization :=
  { firstPacketTime := 0, start := 0, now := 3000000000 }

/-! ## The drain loop and the three outcomes of a poll tick -/

/-- The drain loop terminates with the queue empty and with every packet of
the queue appended to the buffer, oldest first. -/
theorem drainQueue_eq {P : Type} (q : OutputPacketQueue P) (buf : List P) :
    drainQueue q buf = ({ q with items := [] }, buf ++ q.items) := by
  obtain ⟨id, capacity, items⟩ := q
  induction items generalizing buf with
  | nil =>
    rw [drainQueue]
    simp [OutputPacketQueue.Get]
  | cons x xs ih =>
    rw [drainQueue]
    simp [OutputPacketQueue.Get, ih]

/-- A tick after which the history is empty: only the buffer, the queue and
the history are written. -/
theorem OnTimer_of_empty {H P : Type} (ops : HistoryOps H P) (now : Int) (p : Panel H P)
    (q : OutputPacketQueue P) (h : H)
    (hq : p.mOutputQueue = some q) (hh : p.mHistory = some h)
    (hempty : ops.IsEmpty (ops.Push h q.items) = true) :
    OnTimer ops now p =
      some { p with
              mPacketBuffer := q.items
              mOutputQueue := some { q with items := [] }
              mHistory := some (ops.Push h q.items) } := by
  simp [OnTimer, hq, hh, drainQueue_eq, hempty]

/-- A tick with data when no synchronization exists yet. -/
theorem OnTimer_of_first_data {H P : Type} (ops : HistoryOps H P) (now : Int) (p : Panel H P)
    (q : OutputPacketQueue P) (h : H) (first : Packet)
    (hq : p.mOutputQueue = some q) (hh : p.mHistory = some h)
    (hdata : ops.IsEmpty (ops.Push h q.items) = false)
    (hsync : p.mSync = none)
    (hfirst : frontFront (ops.GetSegments (ops.Push h q.items)) = some first) :
    OnTimer ops now p =
      some { p with
              mPacketBuffer := q.items
              mOutputQueue := some { q with items := [] }
              mHistory := some (ops.Push h q.items)
              mSync := some { firstPacketTime := first.time + p.mCompressorInstance.latencyMs / 1000
                              start := now
                              now := now }
              mPlaybackAboutToStart := false
              refreshCount := p.refreshCount + 1 } := by
  simp [OnTimer, hq, hh, drainQueue_eq, hdata, hsync, hfirst]

/-- A tick with data when a synchronization exists. -/
theorem OnTimer_of_synchronized {H P : Type} (ops : HistoryOps H P) (now : Int)
    (p : Panel H P) (q : OutputPacketQueue P) (h : H) (sync : ClockSynchronization)
    (hq : p.mOutputQueue = some q) (hh : p.mHistory = some h)
    (hdata : ops.IsEmpty (ops.Push h q.items) = false)
    (hsync : p.mSync = some sync) :
    OnTimer ops now p =
      some { p with
              mPacketBuffer := q.items
              mOutputQueue := some { q with items := [] }
              mHistory := some (ops.Push h q.items)
              mSync := some { sync with now := now }
              mPlaybackAboutToStart := false
              refreshCount := p.refreshCount + 1 } := by
  simp [OnTimer, hq, hh, drainQueue_eq, hdata, hsync]

/-! ## Clock synchronization -/

/-- The elapsed time of a packet, from the three fields of the synchronization. -/
theorem elapsedSincePacket_mk (firstPacketTime : ℚ) (start now : Int) (packet : Packet) :
    elapsedSincePacket { firstPacketTime := firstPacketTime, start := start, now := now } packet =
      ((now - start : Int) : ℚ) / ticksPerSecond - (packet.time - firstPacketTime) := by
  simp [elapsedSincePacket, elapsedTimeSinceFirstPacket]

/-- Two data ticks in a row, the first without a synchronization: the first
creates it, the second only moves its `now`. The queue may have been refilled
with `q1` in between. -/
theorem OnTimer_twice {H P : Type} (ops : HistoryOps H P) (now0 now1 : Int) (p : Panel H P)
    (q q1 : OutputPacketQueue P) (h : H) (first : Packet)
    (hq : p.mOutputQueue = some q) (hh : p.mHistory = some h)
    (hdata : ops.IsEmpty (ops.Push h q.items) = false)
    (hsync : p.mSync = none)
    (hfirst : frontFront (ops.GetSegments (ops.Push h q.items)) = some first)
    (hdata1 : ops.IsEmpty (ops.Push (ops.Push h q.items) q1.items) = false) :
    ∃ p1 p2, OnTimer ops now0 p = some p1 ∧
      OnTimer ops now1 { p1 with mOutputQueue := some q1 } = some p2 ∧
      p2.mSync = some { firstPacketTime := first.time + p.mCompressorInstance.latencyMs / 1000
                        start := now0
                        now := now1 } := by
  have h1 := OnTimer_of_first_data ops now0 p q h first hq hh hdata hsync hfirst
  have h2 := OnTimer_of_synchronized ops now1
    { p with
        mPacketBuffer := q.items
        mOutputQueue := some q1
        mHistory := some (ops.Push h q.items)
        mSync := some { firstPacketTime := first.time + p.mCompressorInstance.latencyMs / 1000
                        start := now0
                        now := now0 }
        mPlaybackAboutToStart := false
        refreshCount := p.refreshCount + 1 }
    q1 (ops.Push h q.items) _ rfl rfl hdata1 rfl
  exact ⟨_, _, h1, h2, rfl⟩

/-- C1 (display offset). The panel awaits its first packet (no synchronization);
a tick at `now0` finds data whose first packet is `first`, the audio thread
refills the queue, and a tick at `now1` finds data again. Both ticks return,
and the elapsed time that `OnPaint` then computes for any packet is
`(now1 - now0) - (packet.time - (first.time + latency))`, with the clock
difference in seconds and `latency = latencyMs / 1000`. -/
theorem elapsedSincePacket_after_initialize_and_tick {H P : Type} (ops : HistoryOps H P)
    (now0 now1 : Int) (p : Panel H P) (q q1 : OutputPacketQueue P) (h : H) (first : Packet)
    (hq : p.mOutputQueue = some q) (hh : p.mHistory = some h)
    (hdata : ops.IsEmpty (ops.Push h q.items) = false)
    (hsync : p.mSync = none)
    (hfirst : frontFront (ops.GetSegments (ops.Push h q.items)) = some first)
    (hdata1 : ops.IsEmpty (ops.Push (ops.Push h q.items) q1.items) = false) :
    ∃ p1 p2 sync, OnTimer ops now0 p = some p1 ∧
      OnTimer ops now1 { p1 with mOutputQueue := some q1 } = some p2 ∧
      p2.mSync = some sync ∧
      ∀ packet : Packet, elapsedSincePacket sync packet =
        ((now1 - now0 : Int) : ℚ) / ticksPerSecond -
          (packet.time - (first.time + p.mCompressorInstance.latencyMs / 1000)) := by
  obtain ⟨p1, p2, h1, h2, h3⟩ :=
    OnTimer_twice ops now0 now1 p q q1 h first hq hh hdata hsync hfirst hdata1
  exact ⟨p1, p2, _, h1, h2, h3, fun packet => elapsedSincePacket_mk _ _ _ packet⟩

/-- Witness of C1: first packet at time 0, latency 0, first tick at clock
reading 7000 and second tick two seconds later; the packet at time 0.5 has an
elapsed time of 1.5 seconds. -/
theorem elapsedSincePacket_after_initialize_and_tick_witness :
    ∃ p1 p2 sync,
      OnTimer sampleOps 7000 (sampleAwaiting 0 [samplePacket 0, samplePacket (1 / 2)]) = some p1 ∧
      OnTimer sampleOps 2000007000
        { p1 with mOutputQueue := some { id := 0, capacity := 1102, items := [samplePacket 1] } } =
          some p2 ∧
      p2.mSync = some sync ∧ elapsedSincePacket sync (samplePacket (1 / 2)) = 3 / 2 := by
  obtain ⟨p1, p2, sync, h1, h2, h3, h4⟩ :=
    elapsedSincePacket_after_initialize_and_tick sampleOps 7000 2000007000
      (sampleAwaiting 0 [samplePacket 0, samplePacket (1 / 2)])
      { id := 0, capacity := 1102, items := [samplePacket 0, samplePacket (1 / 2)] }
      { id := 0, capacity := 1102, items := [samplePacket 1] }
      { segments := [], beginNewSegment := false } (samplePacket 0) rfl rfl
      (by norm_num [sampleOps, specHistoryOps, SpecHistory.push, SpecHistory.append,
            SpecHistory.trim, samplePacket, List.dropWhile])
      rfl
      (by norm_num [sampleOps, specHistoryOps, SpecHistory.push, SpecHistory.append,
            SpecHistory.trim, samplePacket, List.dropWhile, frontFront])
      (by norm_num [sampleOps, specHistoryOps, SpecHistory.push, SpecHistory.append,
            SpecHistory.trim, samplePacket, List.dropWhile])
  refine ⟨p1, p2, sync, h1, h2, h3, ?_⟩
  rw [h4]
  norm_num [samplePacket, sampleAwaiting, ticksPerSecond]

/-- C2 (synchronizer initialization). On a tick at clock reading `now` with no
synchronization, when the history is non-empty after the push and `first` is
the first packet of its oldest segment, `OnTimer` returns and the
synchronization it leaves has `firstPacketTime = first.time + latencyMs / 1000`,
`start = now` and `now = now`. -/
theorem synchronization_created_on_first_data {H P : Type} (ops : HistoryOps H P)
    (now : Int) (p : Panel H P) (q : OutputPacketQueue P) (h : H) (first : Packet)
    (hq : p.mOutputQueue = some q) (hh : p.mHistory = some h)
    (hdata : ops.IsEmpty (ops.Push h q.items) = false)
    (hsync : p.mSync = none)
    (hfirst : frontFront (ops.GetSegments (ops.Push h q.items)) = some first) :
    ∃ p1, OnTimer ops now p = some p1 ∧
      p1.mSync = some { firstPacketTime := first.time + p.mCompressorInstance.latencyMs / 1000
                        start := now
                        now := now } :=
  ⟨_, OnTimer_of_first_data ops now p q h first hq hh hdata hsync hfirst, rfl⟩

/-- Witness of C2: latency 20 ms, first packet at 0.25 s, tick at clock
reading 9000. -/
theorem synchronization_created_on_first_data_witness :
    ∃ p1, OnTimer sampleOps 9000 (sampleAwaiting 20 [samplePacket (1 / 4)]) = some p1 ∧
      p1.mSync = some { firstPacketTime := 27 / 100, start := 9000, now := 9000 } := by
  obtain ⟨p1, h1, h2⟩ :=
    synchronization_created_on_first_data sampleOps 9000
      (sampleAwaiting 20 [samplePacket (1 / 4)])
      { id := 0, capacity := 1102, items := [samplePacket (1 / 4)] }
      { segments := [], beginNewSegment := false } (samplePacket (1 / 4)) rfl rfl
      (by norm_num [sampleOps, specHistoryOps, SpecHistory.push, SpecHistory.append,
            SpecHistory.trim, samplePacket, List.dropWhile])
      rfl
      (by norm_num [sampleOps, specHistoryOps, SpecHistory.push, SpecHistory.append,
            SpecHistory.trim, samplePacket, List.dropWhile, frontFront])
  refine ⟨p1, h1, ?_⟩
  rw [h2]
  norm_num [samplePacket, sampleAwaiting]

/-- C4, as amended. Under the conditions of two data ticks at `now0` and
`now1`, the first creating the synchronization from the first packet `first`:
a packet whose time is that of `first` has elapsed time
`(now1 - now0) + latency`, the clock difference in seconds and
`latency = latencyMs / 1000`. -/
theorem elapsedSincePacket_of_first_packet_time {H P : Type} (ops : HistoryOps H P)
    (now0 now1 : Int) (p : Panel H P) (q q1 : OutputPacketQueue P) (h : H) (first : Packet)
    (hq : p.mOutputQueue = some q) (hh : p.mHistory = some h)
    (hdata : ops.IsEmpty (ops.Push h q.items) = false)
    (hsync : p.mSync = none)
    (hfirst : frontFront (ops.GetSegments (ops.Push h q.items)) = some first)
    (hdata1 : ops.IsEmpty (ops.Push (ops.Push h q.items) q1.items) = false)
    (packet : Packet) (htime : packet.time = first.time) :
    ∃ p1 p2 sync, OnTimer ops now0 p = some p1 ∧
      OnTimer ops now1 { p1 with mOutputQueue := some q1 } = some p2 ∧
      p2.mSync = some sync ∧
      elapsedSincePacket sync packet =
        ((now1 - now0 : Int) : ℚ) / ticksPerSecond + p.mCompressorInstance.latencyMs / 1000 := by
  obtain ⟨p1, p2, h1, h2, h3⟩ :=
    OnTimer_twice ops now0 now1 p q q1 h first hq hh hdata hsync hfirst hdata1
  refine ⟨p1, p2, _, h1, h2, h3, ?_⟩
  rw [elapsedSincePacket_mk, htime]
  ring

/-- Witness of C4 as amended: latency 20 ms, first packet at 0.25 s, ticks at
clock readings 9000 and 9000 + 0.5 s; the first packet itself is 0.52 s old. -/
theorem elapsedSincePacket_of_first_packet_time_witness :
    ∃ p1 p2 sync,
      OnTimer sampleOps 9000 (sampleAwaiting 20 [samplePacket (1 / 4)]) = some p1 ∧
      OnTimer sampleOps 500009000
        { p1 with mOutputQueue := some { id := 0, capacity := 1102, items := [] } } = some p2 ∧
      p2.mSync = some sync ∧ elapsedSincePacket sync (samplePacket (1 / 4)) = 13 / 25 := by
  obtain ⟨p1, p2, sync, h1, h2, h3, h4⟩ :=
    elapsedSincePacket_of_first_packet_time sampleOps 9000 500009000
      (sampleAwaiting 20 [samplePacket (1 / 4)])
      { id := 0, capacity := 1102, items := [samplePacket (1 / 4)] }
      { id := 0, capacity := 1102, items := [] }
      { segments := [], beginNewSegment := false } (samplePacket (1 / 4)) rfl rfl
      (by norm_num [sampleOps, specHistoryOps, SpecHistory.push, SpecHistory.append,
            SpecHistory.trim, samplePacket, List.dropWhile])
      rfl
      (by norm_num [sampleOps, specHistoryOps, SpecHistory.push, SpecHistory.append,
            SpecHistory.trim, samplePacket, List.dropWhile, frontFront])
      (by norm_num [sampleOps, specHistoryOps, SpecHistory.push, SpecHistory.append,
            SpecHistory.trim, samplePacket, List.dropWhile])
      (samplePacket (1 / 4)) rfl
  refine ⟨p1, p2, sync, h1, h2, h3, ?_⟩
  rw [h4]
  norm_num [sampleAwaiting, ticksPerSecond]

/-- Counterexample to C4 as stated: latency 100 ms, first packet at time 0,
ticks at clock readings 0 and one second later (the queue then holds the
packet at time 1). The elapsed time of the packet at time 0 is 1.1 s, whereas
`(now1 - now0) - latency` is 0.9 s. -/
theorem elapsedSincePacket_of_first_packet_time_counterexample :
    ∃ p1 p2 sync,
      OnTimer sampleOps 0 (sampleAwaiting 100 [samplePacket 0]) = some p1 ∧
      OnTimer sampleOps 1000000000
        { p1 with mOutputQueue := some { id := 0, capacity := 1102, items := [samplePacket 1] } } =
          some p2 ∧
      p2.mSync = some sync ∧
      elapsedSincePacket sync (samplePacket 0) = 11 / 10 ∧
      elapsedSincePacket sync (samplePacket 0) ≠
        ((1000000000 - 0 : Int) : ℚ) / ticksPerSecond - (100 : ℚ) / 1000 := by
  obtain ⟨p1, p2, h1, h2, h3⟩ :=
    OnTimer_twice sampleOps 0 1000000000 (sampleAwaiting 100 [samplePacket 0])
      { id := 0, capacity := 1102, items := [samplePacket 0] }
      { id := 0, capacity := 1102, items := [samplePacket 1] }
      { segments := [], beginNewSegment := false } (samplePacket 0) rfl rfl
      (by norm_num [sampleOps, specHistoryOps, SpecHistory.push, SpecHistory.append,
            SpecHistory.trim, samplePacket, List.dropWhile])
      rfl
      (by norm_num [sampleOps, specHistoryOps, SpecHistory.push, SpecHistory.append,
            SpecHistory.trim, samplePacket, List.dropWhile, frontFront])
      (by norm_num [sampleOps, specHistoryOps, SpecHistory.push, SpecHistory.append,
            SpecHistory.trim, samplePacket, List.dropWhile])
  refine ⟨p1, p2, _, h1, h2, h3, ?_, ?_⟩ <;>
    rw [elapsedSincePacket_mk] <;>
    norm_num [samplePacket, sampleAwaiting, ticksPerSecond]

/-! ## The poll tick: empty tick and drain -/

/-- C5 (empty tick). When the history is empty after the drain and the push,
`OnTimer` returns and leaves the synchronization, the playback-about-to-start
flag and the count of repaint requests as they were (and also the timer and
the instance). -/
theorem OnTimer_empty_tick {H P : Type} (ops : HistoryOps H P) (now : Int) (p : Panel H P)
    (q : OutputPacketQueue P) (h : H)
    (hq : p.mOutputQueue = some q) (hh : p.mHistory = some h)
    (hempty : ops.IsEmpty (ops.Push h q.items) = true) :
    ∃ p1, OnTimer ops now p = some p1 ∧
      p1.mSync = p.mSync ∧
      p1.mPlaybackAboutToStart = p.mPlaybackAboutToStart ∧
      p1.refreshCount = p.refreshCount ∧
      p1.mTimer = p.mTimer ∧
      p1.mCompressorInstance = p.mCompressorInstance :=
  ⟨_, OnTimer_of_empty ops now p q h hq hh hempty, rfl, rfl, rfl, rfl, rfl⟩

/-- Witness of C5: a tick on a freshly initialised panel with an empty queue. -/
theorem OnTimer_empty_tick_witness :
    ∃ p1, OnTimer sampleOps 9000 (sampleAwaiting 20 []) = some p1 ∧
      p1.mSync = none ∧ p1.mPlaybackAboutToStart = true ∧ p1.refreshCount = 1 ∧
      p1.mTimer = some 5 ∧
      p1.mCompressorInstance = { latencyMs := 20, sampleRate := some 44100, outputQueue := some 0 } :=
  OnTimer_empty_tick sampleOps 9000 (sampleAwaiting 20 [])
    { id := 0, capacity := 1102, items := [] }
    { segments := [], beginNewSegment := false } rfl rfl
    (by simp [sampleOps, specHistoryOps, SpecHistory.push])

/-- C6 (drain is complete and FIFO). Whatever the buffer held before, a tick
on a queue holding `q.items` (oldest first) returns with the buffer equal to
`q.items`, the history equal to `Push` applied to exactly that list, and the
queue empty. The tick returns when the history is empty after the push, or a
synchronization exists, or the oldest segment has a first packet. -/
theorem OnTimer_drains_queue_in_order {H P : Type} (ops : HistoryOps H P) (now : Int)
    (p : Panel H P) (q : OutputPacketQueue P) (h : H)
    (hq : p.mOutputQueue = some q) (hh : p.mHistory = some h)
    (hdefined : ops.IsEmpty (ops.Push h q.items) = true ∨ p.mSync ≠ none ∨
      frontFront (ops.GetSegments (ops.Push h q.items)) ≠ none) :
    ∃ p1, OnTimer ops now p = some p1 ∧
      p1.mPacketBuffer = q.items ∧
      p1.mHistory = some (ops.Push h q.items) ∧
      p1.mOutputQueue = some { q with items := [] } := by
  cases hempty : ops.IsEmpty (ops.Push h q.items) with
  | true => exact ⟨_, OnTimer_of_empty ops now p q h hq hh hempty, rfl, rfl, rfl⟩
  | false =>
    cases hsync : p.mSync with
    | some sync =>
      exact ⟨_, OnTimer_of_synchronized ops now p q h sync hq hh hempty hsync, rfl, rfl, rfl⟩
    | none =>
      cases hfirst : frontFront (ops.GetSegments (ops.Push h q.items)) with
      | some first =>
        exact ⟨_, OnTimer_of_first_data ops now p q h first hq hh hempty hsync hfirst,
          rfl, rfl, rfl⟩
      | none =>
        rcases hdefined with hd | hd | hd
        · rw [hempty] at hd
          cases hd
        · exact absurd hsync hd
        · exact absurd hfirst hd

/-- Witness of C6: a buffer with a stale packet and a queue of three packets. -/
theorem OnTimer_drains_queue_in_order_witness :
    ∃ p1,
      OnTimer sampleOps 9000
        { sampleAwaiting 0 [samplePacket 0, samplePacket (1 / 100), samplePacket (1 / 50)] with
            mPacketBuffer := [samplePacket 7] } = some p1 ∧
      p1.mPacketBuffer = [samplePacket 0, samplePacket (1 / 100), samplePacket (1 / 50)] ∧
      p1.mHistory = some (sampleOps.Push { segments := [], beginNewSegment := false }
        [samplePacket 0, samplePacket (1 / 100), samplePacket (1 / 50)]) ∧
      p1.mOutputQueue = some { id := 0, capacity := 1102, items := [] } :=
  OnTimer_drains_queue_in_order sampleOps 9000
    { sampleAwaiting 0 [samplePacket 0, samplePacket (1 / 100), samplePacket (1 / 50)] with
        mPacketBuffer := [samplePacket 7] }
    { id := 0, capacity := 1102,
      items := [samplePacket 0, samplePacket (1 / 100), samplePacket (1 / 50)] }
    { segments := [], beginNewSegment := false } rfl rfl
    (Or.inr (Or.inr (by
      norm_num [sampleOps, specHistoryOps, SpecHistory.push, SpecHistory.append,
        SpecHistory.trim, samplePacket, List.dropWhile, frontFront]
      simp)))

/-! ## The synchronization along a run of events -/

/-- A run whose first event is delivered continues from the state it leaves. -/
theorem run_cons_of_dispatch {H P : Type} (ops : HistoryOps H P) (p p1 : Panel H P)
    (e : Event P) (es : List (Event P)) (hd : dispatch ops p e = some p1) :
    run ops p (e :: es) = run ops p1 es := by
  simp [run, hd]

/-- One event other than a playback initialisation, delivered to a panel with
a queue, a history and a synchronization: the delivery returns, the three are
still there, and of the synchronization only `now` may have changed, to the
instant of the event when it is a timer notification. -/
theorem dispatch_of_synchronized {H P : Type} (ops : HistoryOps H P) (p : Panel H P)
    (e : Event P) (q : OutputPacketQueue P) (h : H) (sync : ClockSynchronization)
    (hq : p.mOutputQueue = some q) (hh : p.mHistory = some h) (hsync : p.mSync = some sync)
    (hinit : e.isInitialization = false) :
    ∃ p1 q1 h1 sync1, dispatch ops p e = some p1 ∧
      p1.mOutputQueue = some q1 ∧ p1.mHistory = some h1 ∧ p1.mSync = some sync1 ∧
      sync1.start = sync.start ∧ sync1.firstPacketTime = sync.firstPacketTime ∧
      (sync1.now = sync.now ∨ e = Event.timer sync1.now) := by
  cases e with
  | processingSettings evt =>
    cases evt with
    | some settings => simp [Event.isInitialization] at hinit
    | none =>
      exact ⟨{ p with mTimer := none }, q, h, sync, rfl, hq, hh, hsync, rfl, rfl, Or.inl rfl⟩
  | realtimeResume =>
    refine ⟨{ p with mHistory := some (ops.BeginNewSegment h) }, q, ops.BeginNewSegment h, sync,
      ?_, hq, rfl, hsync, rfl, rfl, Or.inl rfl⟩
    simp [dispatch, OnRealtimeResume, hh]
  | timer now =>
    cases htimer : p.mTimer with
    | none =>
      refine ⟨p, q, h, sync, ?_, hq, hh, hsync, rfl, rfl, Or.inl rfl⟩
      simp [dispatch, htimer]
    | some period =>
      have hd : dispatch ops p (Event.timer now) = OnTimer ops now p := by
        simp [dispatch, htimer]
      rw [hd]
      cases hempty : ops.IsEmpty (ops.Push h q.items) with
      | true =>
        exact ⟨_, _, _, sync, OnTimer_of_empty ops now p q h hq hh hempty, rfl, rfl, hsync,
          rfl, rfl, Or.inl rfl⟩
      | false =>
        exact ⟨_, _, _, { sync with now := now },
          OnTimer_of_synchronized ops now p q h sync hq hh hempty hsync, rfl, rfl, rfl,
          rfl, rfl, Or.inr rfl⟩
  | produce packet =>
    refine ⟨{ p with mOutputQueue := some (q.Put packet).2 }, (q.Put packet).2, h, sync,
      ?_, rfl, hh, hsync, rfl, rfl, Or.inl rfl⟩
    simp [dispatch, hq]

/-- C3 (start is set once). Take a panel with a queue, a history and a
synchronization `sync`. A poll tick at `now` returns and leaves either `sync`
itself or `sync` with only `now` replaced by the instant of the tick. And any
sequence of events without a playback initialisation (timer notifications,
resume events, stop events, packets put on the queue) runs to the end and
leaves a synchronization with the `start` and `firstPacketTime` of `sync`,
whose `now` is that of `sync` or the instant of one of the timer events. -/
theorem start_and_firstPacketTime_assigned_once {H P : Type} (ops : HistoryOps H P)
    (p : Panel H P) (q : OutputPacketQueue P) (h : H) (sync : ClockSynchronization)
    (now : Int) (es : List (Event P))
    (hq : p.mOutputQueue = some q) (hh : p.mHistory = some h) (hsync : p.mSync = some sync)
    (hinit : ∀ e ∈ es, Event.isInitialization e = false) :
    (∃ p1, OnTimer ops now p = some p1 ∧
      (p1.mSync = some sync ∨ p1.mSync = some { sync with now := now })) ∧
    ∃ p1 sync1, run ops p es = some p1 ∧ p1.mSync = some sync1 ∧
      sync1.start = sync.start ∧ sync1.firstPacketTime = sync.firstPacketTime ∧
      (sync1.now = sync.now ∨ Event.timer sync1.now ∈ es) := by
  constructor
  · cases hempty : ops.IsEmpty (ops.Push h q.items) with
    | true => exact ⟨_, OnTimer_of_empty ops now p q h hq hh hempty, Or.inl hsync⟩
    | false =>
      exact ⟨_, OnTimer_of_synchronized ops now p q h sync hq hh hempty hsync, Or.inr rfl⟩
  · induction es generalizing p q h sync with
    | nil => exact ⟨p, sync, rfl, hsync, rfl, rfl, Or.inl rfl⟩
    | cons e es ih =>
      obtain ⟨p1, q1, h1, sync1, hd, hq1, hh1, hsync1, hstart, hfirst, hnow⟩ :=
        dispatch_of_synchronized ops p e q h sync hq hh hsync
          (hinit e (List.mem_cons_self e es))
      obtain ⟨p2, sync2, hrun, hsync2, hstart2, hfirst2, hnow2⟩ :=
        ih p1 q1 h1 sync1 hq1 hh1 hsync1 (fun e1 he1 => hinit e1 (List.mem_cons_of_mem e he1))
      refine ⟨p2, sync2, ?_, hsync2, hstart2.trans hstart, hfirst2.trans hfirst, ?_⟩
      · rw [run_cons_of_dispatch ops p p1 e es hd, hrun]
      · rcases hnow2 with hn | hn
        · rcases hnow with hm | hm
          · exact Or.inl (hn.trans hm)
          · right
            rw [hn, ← hm]
            exact List.mem_cons_self e es
        · exact Or.inr (List.mem_cons_of_mem e hn)

/-- Witness of C3: a synchronized panel receives a tick, a resume event, a
packet, a stop event and a (then undelivered) timer notification. -/
theorem start_and_firstPacketTime_assigned_once_witness :
    (∃ p1, OnTimer sampleOps 10000 sampleSynchronized = some p1 ∧
      (p1.mSync = some { firstPacketTime := 27 / 100, start := 9000, now := 9000 } ∨
        p1.mSync = some { firstPacketTime := 27 / 100, start := 9000, now := 10000 })) ∧
    ∃ p1 sync1,
      run sampleOps sampleSynchronized
        [Event.timer 20000, Event.realtimeResume, Event.produce (samplePacket 1),
          Event.processingSettings none, Event.timer 30000] = some p1 ∧
      p1.mSync = some sync1 ∧ sync1.start = 9000 ∧ sync1.firstPacketTime = 27 / 100 ∧
      (sync1.now = 9000 ∨
        Event.timer sync1.now ∈
          [Event.timer 20000, Event.realtimeResume, Event.produce (samplePacket 1),
            Event.processingSettings none, Event.timer 30000]) :=
  start_and_firstPacketTime_assigned_once sampleOps sampleSynchronized
    { id := 0, capacity := 1102, items := [samplePacket (1 / 2)] }
    { segments := [[samplePacket (1 / 4)]], beginNewSegment := false }
    { firstPacketTime := 27 / 100, start := 9000, now := 9000 } 10000
    [Event.timer 20000, Event.realtimeResume, Event.produce (samplePacket 1),
      Event.processingSettings none, Event.timer 30000]
    rfl rfl rfl (by simp [Event.isInitialization])

/-! ## Playback lifecycle events -/

/-- C8 (resume only segments). The realtime-resume callback applies
`BeginNewSegment` once to the history when there is one, and leaves every
other field of the panel as it was: the synchronization, the queue, the packet
buffer, the playback-about-to-start flag, and the rest. Without a history the
first equation reads `mHistory = none`, so the whole state is unchanged. -/
theorem OnRealtimeResume_only_segments {H P : Type} (ops : HistoryOps H P) (p : Panel H P) :
    (OnRealtimeResume ops p).mHistory = p.mHistory.map ops.BeginNewSegment ∧
    (OnRealtimeResume ops p).mSync = p.mSync ∧
    (OnRealtimeResume ops p).mOutputQueue = p.mOutputQueue ∧
    (OnRealtimeResume ops p).mPacketBuffer = p.mPacketBuffer ∧
    (OnRealtimeResume ops p).mPlaybackAboutToStart = p.mPlaybackAboutToStart ∧
    { OnRealtimeResume ops p with mHistory := p.mHistory } = p := by
  obtain ⟨inst, history, sync, queue, buffer, flag, timer, refreshes, queues⟩ := p
  cases history <;> simp [OnRealtimeResume]

/-- C9, as amended (stop only stops the timer). The callback invoked with an
empty optional stops the poll timer and leaves the synchronization, the queue
and the handle of the instance on the queue exactly as they were. -/
theorem stop_keeps_synchronization_and_queue {H P : Type} (ops : HistoryOps H P)
    (p : Panel H P) :
    ∃ p1, OnInitializeProcessingSettings ops p none = some p1 ∧
      p1.mTimer = none ∧
      p1.mSync = p.mSync ∧
      p1.mOutputQueue = p.mOutputQueue ∧
      p1.mCompressorInstance = p.mCompressorInstance :=
  ⟨_, rfl, rfl, rfl, rfl, rfl⟩

/-- Counterexample to C9 as stated: a freshly initialised panel whose queue
holds one packet receives a tick at clock reading 9000 and then the stop
event. The synchronization created by the tick and the queue are still there
after the stop event, and the instance still refers to the queue. -/
theorem stop_tears_down_counterexample :
    ∃ p1, run sampleOps (sampleAwaiting 20 [samplePacket (1 / 4)])
        [Event.timer 9000, Event.processingSettings none] = some p1 ∧
      p1.mSync = some { firstPacketTime := 27 / 100, start := 9000, now := 9000 } ∧
      p1.mOutputQueue = some { id := 0, capacity := 1102, items := [] } ∧
      p1.mCompressorInstance.outputQueue = some 0 ∧
      ¬ (p1.mSync = none) ∧ ¬ (p1.mOutputQueue = none) := by
  have h1 := OnTimer_of_first_data sampleOps 9000 (sampleAwaiting 20 [samplePacket (1 / 4)])
    { id := 0, capacity := 1102, items := [samplePacket (1 / 4)] }
    { segments := [], beginNewSegment := false } (samplePacket (1 / 4)) rfl rfl
    (by norm_num [sampleOps, specHistoryOps, SpecHistory.push, SpecHistory.append,
          SpecHistory.trim, samplePacket, List.dropWhile])
    rfl
    (by norm_num [sampleOps, specHistoryOps, SpecHistory.push, SpecHistory.append,
          SpecHistory.trim, samplePacket, List.dropWhile, frontFront])
  have hd : dispatch sampleOps (sampleAwaiting 20 [samplePacket (1 / 4)]) (Event.timer 9000) =
      OnTimer sampleOps 9000 (sampleAwaiting 20 [samplePacket (1 / 4)]) := rfl
  rw [h1] at hd
  have hrun := run_cons_of_dispatch sampleOps _ _ (Event.timer 9000)
    [Event.processingSettings none] hd
  simp only [run, dispatch, OnInitializeProcessingSettings] at hrun
  refine ⟨_, hrun, ?_, rfl, rfl, ?_, ?_⟩
  · norm_num [sampleAwaiting, samplePacket]
  · simp
  · simp

/-- One event other than a playback initialisation, delivered while the timer
is stopped: the delivery returns, the timer is still stopped, and the history
is untouched unless the event is a resume, which applies `BeginNewSegment`. -/
theorem dispatch_of_stopped {H P : Type} (ops : HistoryOps H P) (p : Panel H P)
    (e : Event P) (htimer : p.mTimer = none) (hinit : e.isInitialization = false) :
    ∃ p1, dispatch ops p e = some p1 ∧ p1.mTimer = none ∧
      (p1.mHistory = p.mHistory ∨
        (e = Event.realtimeResume ∧ p1.mHistory = p.mHistory.map ops.BeginNewSegment)) := by
  cases e with
  | processingSettings evt =>
    cases evt with
    | some settings => simp [Event.isInitialization] at hinit
    | none => exact ⟨{ p with mTimer := none }, rfl, rfl, Or.inl rfl⟩
  | realtimeResume =>
    refine ⟨OnRealtimeResume ops p, rfl, ?_, Or.inr ⟨rfl, ?_⟩⟩
    · unfold OnRealtimeResume
      cases p.mHistory <;> exact htimer
    · unfold OnRealtimeResume
      cases hh : p.mHistory <;> simp [hh]
  | timer now =>
    refine ⟨p, ?_, htimer, Or.inl rfl⟩
    simp [dispatch, htimer]
  | produce packet =>
    cases hq : p.mOutputQueue with
    | none =>
      refine ⟨p, ?_, htimer, Or.inl rfl⟩
      simp [dispatch, hq]
    | some q =>
      refine ⟨{ p with mOutputQueue := some (q.Put packet).2 }, ?_, htimer, Or.inl rfl⟩
      simp [dispatch, hq]

/-- A run without playback initialisation on a panel whose timer is stopped
runs to the end with the timer stopped; the segments of the history are those
at the start, and the history itself is the same when no resume event
occurred. -/
theorem run_of_stopped {H P : Type} (ops : HistoryOps H P) (es : List (Event P))
    (p : Panel H P) (htimer : p.mTimer = none)
    (hinit : ∀ e ∈ es, Event.isInitialization e = false)
    (hseg : ∀ h : H, ops.GetSegments (ops.BeginNewSegment h) = ops.GetSegments h) :
    ∃ p1, run ops p es = some p1 ∧ p1.mTimer = none ∧
      p1.mHistory.map ops.GetSegments = p.mHistory.map ops.GetSegments ∧
      (Event.realtimeResume ∉ es → p1.mHistory = p.mHistory) := by
  induction es generalizing p with
  | nil => exact ⟨p, rfl, htimer, rfl, fun _ => rfl⟩
  | cons e es ih =>
    obtain ⟨p1, hd, htimer1, hhist⟩ :=
      dispatch_of_stopped ops p e htimer (hinit e (List.mem_cons_self e es))
    obtain ⟨p2, hrun, htimer2, hsegs, hsame⟩ :=
      ih p1 htimer1 (fun e1 he1 => hinit e1 (List.mem_cons_of_mem e he1))
    refine ⟨p2, ?_, htimer2, ?_, ?_⟩
    · rw [run_cons_of_dispatch ops p p1 e es hd, hrun]
    · rw [hsegs]
      rcases hhist with hsame1 | ⟨_, hresume⟩
      · rw [hsame1]
      · rw [hresume]
        cases p.mHistory <;> simp [hseg]
    · intro hno
      have hne : e ≠ Event.realtimeResume := fun he => hno (he ▸ List.mem_cons_self e es)
      have hnotin : Event.realtimeResume ∉ es := fun hin => hno (List.mem_cons_of_mem e hin)
      rw [hsame hnotin]
      rcases hhist with hsame1 | ⟨he, _⟩
      · exact hsame1
      · exact absurd he hne

/-- C10 (stop keeps the history). The stop event leaves the history as it was
and changes no field of the panel but the timer. From then on every sequence
of events without a playback initialisation runs to the end with the timer
stopped (no tick is delivered, so nothing is pushed), the segments of the
history are those before the stop event, and the history object itself is the
same when no resume event occurred (`BeginNewSegment`, which a resume event
calls, does not alter the segments). -/
theorem stop_keeps_history {H P : Type} (ops : HistoryOps H P) (p : Panel H P)
    (es : List (Event P))
    (hinit : ∀ e ∈ es, Event.isInitialization e = false)
    (hseg : ∀ h : H, ops.GetSegments (ops.BeginNewSegment h) = ops.GetSegments h) :
    ∃ stopped, OnInitializeProcessingSettings ops p none = some stopped ∧
    stopped.mHistory = p.mHistory ∧
    { stopped with mTimer := p.mTimer } = p ∧
    ∃ p1, run ops stopped es = some p1 ∧
      p1.mTimer = none ∧
      p1.mHistory.map ops.GetSegments = p.mHistory.map ops.GetSegments ∧
      (Event.realtimeResume ∉ es → p1.mHistory = p.mHistory) :=
  ⟨{ p with mTimer := none }, rfl, rfl, rfl,
    run_of_stopped ops es { p with mTimer := none } rfl hinit hseg⟩

/-- Witness of C10: a synchronized panel is stopped, then receives a timer
notification, a resume event, a packet and another stop event. -/
theorem stop_keeps_history_witness :
    ∃ stopped, OnInitializeProcessingSettings sampleOps sampleSynchronized none = some stopped ∧
    stopped.mHistory =
      some { segments := [[samplePacket (1 / 4)]], beginNewSegment := false } ∧
    ∃ p1, run sampleOps stopped
        [Event.timer 30000, Event.realtimeResume, Event.produce (samplePacket 1),
          Event.processingSettings none] = some p1 ∧
      p1.mTimer = none ∧
      p1.mHistory.map sampleOps.GetSegments = some [[samplePacket (1 / 4)]] := by
  obtain ⟨stopped, h0, h1, _, p1, h2, h3, h4, _⟩ :=
    stop_keeps_history sampleOps sampleSynchronized
      [Event.timer 30000, Event.realtimeResume, Event.produce (samplePacket 1),
        Event.processingSettings none]
      (by simp [Event.isInitialization]) (fun _ => rfl)
  exact ⟨stopped, h0, h1, p1, h2, h3, h4⟩

/-! ## Tick instants -/

/-- The synchronization after a tick is the one before the tick, or the one
before the tick with `now` replaced by the instant of the tick, or a new one
whose `start` and `now` are the instant of the tick. -/
theorem OnTimer_mSync_cases {H P : Type} (ops : HistoryOps H P) (now : Int)
    (p p1 : Panel H P) (h : OnTimer ops now p = some p1) :
    p1.mSync = p.mSync ∨
    (∃ s, p.mSync = some s ∧ p1.mSync = some { s with now := now }) ∨
    (p.mSync = none ∧ ∃ s, p1.mSync = some s ∧ s.start = now ∧ s.now = now) := by
  cases hq : p.mOutputQueue with
  | none => simp [OnTimer, hq] at h
  | some q =>
    cases hh : p.mHistory with
    | none => simp [OnTimer, hq, hh] at h
    | some hist =>
      cases hempty : ops.IsEmpty (ops.Push hist q.items) with
      | true =>
        rw [OnTimer_of_empty ops now p q hist hq hh hempty] at h
        cases h
        exact Or.inl rfl
      | false =>
        cases hsync : p.mSync with
        | some s =>
          rw [OnTimer_of_synchronized ops now p q hist s hq hh hempty hsync] at h
          cases h
          exact Or.inr (Or.inl ⟨s, rfl, rfl⟩)
        | none =>
          cases hfirst : frontFront (ops.GetSegments (ops.Push hist q.items)) with
          | none => simp [OnTimer, hq, hh, drainQueue_eq, hempty, hsync, hfirst] at h
          | some first =>
            rw [OnTimer_of_first_data ops now p q hist first hq hh hempty hsync hfirst] at h
            cases h
            exact Or.inr (Or.inr ⟨rfl, _, rfl, rfl, rfl⟩)

/-- The same three cases for the delivery of a timer notification, which runs
`OnTimer` only while the timer runs. -/
theorem dispatch_timer_mSync_cases {H P : Type} (ops : HistoryOps H P) (now : Int)
    (p p1 : Panel H P) (h : dispatch ops p (Event.timer now) = some p1) :
    p1.mSync = p.mSync ∨
    (∃ s, p.mSync = some s ∧ p1.mSync = some { s with now := now }) ∨
    (p.mSync = none ∧ ∃ s, p1.mSync = some s ∧ s.start = now ∧ s.now = now) := by
  cases htimer : p.mTimer with
  | none =>
    simp only [dispatch, htimer, Option.some.injEq] at h
    subst h
    exact Or.inl rfl
  | some period =>
    have hd : dispatch ops p (Event.timer now) = OnTimer ops now p := by
      simp [dispatch, htimer]
    rw [hd] at h
    exact OnTimer_mSync_cases ops now p p1 h

/-- An event other than a timer notification leaves the synchronization as it
is or removes it. -/
theorem dispatch_other_mSync {H P : Type} (ops : HistoryOps H P) (p p1 : Panel H P)
    (e : Event P) (hnot : ∀ now, e ≠ Event.timer now) (h : dispatch ops p e = some p1) :
    p1.mSync = p.mSync ∨ p1.mSync = none := by
  cases e with
  | processingSettings evt =>
    cases evt with
    | none =>
      simp only [dispatch, OnInitializeProcessingSettings, Option.some.injEq] at h
      subst h
      exact Or.inl rfl
    | some settings =>
      simp only [dispatch, OnInitializeProcessingSettings, InitializeForPlayback] at h
      split at h
      · cases h
      · split at h
        · cases h
          exact Or.inr rfl
        · cases h
  | realtimeResume =>
    simp only [dispatch, OnRealtimeResume, Option.some.injEq] at h
    subst h
    cases p.mHistory <;> exact Or.inl rfl
  | timer now => exact absurd rfl (hnot now)
  | produce packet =>
    simp only [dispatch] at h
    cases hq : p.mOutputQueue with
    | none =>
      rw [hq] at h
      cases h
      exact Or.inl rfl
    | some q =>
      rw [hq] at h
      cases h
      exact Or.inl rfl

/-- Along a run whose clock readings never decrease, a synchronization whose
`start` is not later than its `now` and whose `now` is not later than the
latest reading stays so; in particular its `now` is not later than the reading
of the next tick. -/
theorem run_sync_within {H P : Type} (ops : HistoryOps H P) (es : List (Event P)) :
    ∀ (p p1 : Panel H P) (last t : Int),
      (∀ sync, p.mSync = some sync → sync.start ≤ sync.now ∧ sync.now ≤ last) →
      steadyReadings last (es ++ [Event.timer t]) = true →
      run ops p es = some p1 →
      ∀ sync1, p1.mSync = some sync1 → sync1.start ≤ sync1.now ∧ sync1.now ≤ t := by
  induction es with
  | nil =>
    intro p p1 last t hinv hsteady hrun sync1 hsync1
    simp only [run, Option.some.injEq] at hrun
    subst hrun
    simp only [List.nil_append, steadyReadings, Bool.and_true, decide_eq_true_eq] at hsteady
    obtain ⟨h1, h2⟩ := hinv sync1 hsync1
    exact ⟨h1, le_trans h2 hsteady⟩
  | cons e es ih =>
    intro p p1 last t hinv hsteady hrun
    cases hd : dispatch ops p e with
    | none => simp [run, hd] at hrun
    | some pm =>
      rw [run_cons_of_dispatch ops p pm e es hd] at hrun
      have hother : (∀ now, e ≠ Event.timer now) →
          steadyReadings last (es ++ [Event.timer t]) = true →
          ∀ sync1, p1.mSync = some sync1 → sync1.start ≤ sync1.now ∧ sync1.now ≤ t := by
        intro hnot hst
        refine ih pm p1 last t ?_ hst hrun
        intro sync hsync
        rcases dispatch_other_mSync ops p pm e hnot hd with hsame | hnone
        · exact hinv sync (hsame ▸ hsync)
        · rw [hnone] at hsync
          cases hsync
      cases e with
      | timer now =>
        simp only [List.cons_append, steadyReadings, Bool.and_eq_true,
          decide_eq_true_eq] at hsteady
        obtain ⟨hle, hrest⟩ := hsteady
        refine ih pm p1 now t ?_ hrest hrun
        intro sync hsync
        rcases dispatch_timer_mSync_cases ops now p pm hd with hsame | ⟨s, hs, hpm⟩ | ⟨_, s, hpm, h1, h2⟩
        · obtain ⟨h1, h2⟩ := hinv sync (hsame ▸ hsync)
          exact ⟨h1, le_trans h2 hle⟩
        · obtain ⟨h1, h2⟩ := hinv s hs
          rw [hpm] at hsync
          cases hsync
          exact ⟨le_trans h1 (le_trans h2 hle), le_refl _⟩
        · rw [hpm] at hsync
          cases hsync
          exact ⟨by rw [h1, h2], by rw [h2]⟩
      | processingSettings evt =>
        exact hother (fun now hne => by cases hne) (by simpa [steadyReadings] using hsteady)
      | realtimeResume =>
        exact hother (fun now hne => by cases hne) (by simpa [steadyReadings] using hsteady)
      | produce packet =>
        exact hother (fun now hne => by cases hne) (by simpa [steadyReadings] using hsteady)

/-- The elapsed time `now - start` of a synchronization whose `start` is not
later than its `now` is not negative. -/
theorem elapsedTimeSinceFirstPacket_nonneg (sync : ClockSynchronization)
    (h : sync.start ≤ sync.now) : 0 ≤ elapsedTimeSinceFirstPacket sync := by
  unfold elapsedTimeSinceFirstPacket
  apply div_nonneg
  · exact_mod_cast Int.sub_nonneg_of_le h
  · exact Nat.cast_nonneg _

/-- C11 (stale tick). The instant of a tick is a reading of
`std::chrono::steady_clock`, whose readings never decrease. Take a panel whose
synchronization, if any, has `start ≤ now ≤ last` for the latest clock reading
`last` (a panel without synchronization, such as one just initialised, is one),
and deliver any events `es` and then a timer notification at `t`, the clock
readings never decreasing. Then the tick at `t` is not stale: the `now` stored
before it is not later than `t`. Whatever the tick leaves as synchronization
has a `now` not earlier than the one stored before and an elapsed time
`now - start` that is not negative. And with a queue, a history and a
synchronization the tick returns. -/
theorem OnTimer_now_never_decreases {H P : Type} (ops : HistoryOps H P)
    (p p1 : Panel H P) (last t : Int) (es : List (Event P))
    (hinv : ∀ sync, p.mSync = some sync → sync.start ≤ sync.now ∧ sync.now ≤ last)
    (hsteady : steadyReadings last (es ++ [Event.timer t]) = true)
    (hrun : run ops p es = some p1) :
    (∀ sync1, p1.mSync = some sync1 → sync1.now ≤ t) ∧
    (∀ p2 sync2, dispatch ops p1 (Event.timer t) = some p2 → p2.mSync = some sync2 →
      0 ≤ elapsedTimeSinceFirstPacket sync2 ∧
      ∀ sync1, p1.mSync = some sync1 → sync1.now ≤ sync2.now ∧ sync2.start = sync1.start) ∧
    (∀ q h sync1, p1.mOutputQueue = some q → p1.mHistory = some h → p1.mSync = some sync1 →
      ∃ p2 sync2, dispatch ops p1 (Event.timer t) = some p2 ∧ p2.mSync = some sync2) := by
  have hwithin := run_sync_within ops es p p1 last t hinv hsteady hrun
  refine ⟨fun sync1 hsync1 => (hwithin sync1 hsync1).2, ?_, ?_⟩
  · intro p2 sync2 hd hsync2
    rcases dispatch_timer_mSync_cases ops t p1 p2 hd with hsame | ⟨s, hs, hp2⟩ | ⟨hnone, s, hp2, h1, h2⟩
    · rw [hsame] at hsync2
      refine ⟨elapsedTimeSinceFirstPacket_nonneg sync2 (hwithin sync2 hsync2).1, ?_⟩
      intro sync1 hsync1
      rw [hsync2] at hsync1
      cases hsync1
      exact ⟨le_refl _, rfl⟩
    · rw [hp2] at hsync2
      cases hsync2
      obtain ⟨h1, h2⟩ := hwithin s hs
      refine ⟨elapsedTimeSinceFirstPacket_nonneg _ (le_trans h1 h2), ?_⟩
      intro sync1 hsync1
      rw [hs] at hsync1
      cases hsync1
      exact ⟨h2, rfl⟩
    · rw [hp2] at hsync2
      cases hsync2
      refine ⟨elapsedTimeSinceFirstPacket_nonneg _ (by rw [h1, h2]), ?_⟩
      intro sync1 hsync1
      rw [hnone] at hsync1
      cases hsync1
  · intro q h sync1 hq hh hsync1
    obtain ⟨p2, _, _, sync2, hd, _, _, hsync2, _⟩ :=
      dispatch_of_synchronized ops p1 (Event.timer t) q h sync1 hq hh hsync1 rfl
    exact ⟨p2, sync2, hd, hsync2⟩

/-- Witness of C11: the synchronized sample panel (`start = 9000`,
`now = 9000`, one packet on the queue) receives a tick at clock reading 10000,
which stores 10000, and then a tick at 20000. -/
theorem OnTimer_now_never_decreases_witness :
    ∃ p1 sync1, run sampleOps sampleSynchronized [Event.timer 10000] = some p1 ∧
      p1.mSync = some sync1 ∧ sync1.now = 10000 ∧ sync1.now ≤ 20000 ∧
      ∃ p2 sync2, dispatch sampleOps p1 (Event.timer 20000) = some p2 ∧
        p2.mSync = some sync2 ∧ sync1.now ≤ sync2.now ∧
        0 ≤ elapsedTimeSinceFirstPacket sync2 := by
  have htick := OnTimer_of_synchronized sampleOps 10000 sampleSynchronized
    { id := 0, capacity := 1102, items := [samplePacket (1 / 2)] }
    { segments := [[samplePacket (1 / 4)]], beginNewSegment := false }
    { firstPacketTime := 27 / 100, start := 9000, now := 9000 } rfl rfl
    (by norm_num [sampleOps, specHistoryOps, SpecHistory.push, SpecHistory.append,
          SpecHistory.trim, samplePacket, List.dropWhile])
    rfl
  have hrun := run_cons_of_dispatch sampleOps sampleSynchronized _ (Event.timer 10000) []
    (show dispatch sampleOps sampleSynchronized (Event.timer 10000) = _ from htick)
  obtain ⟨h1, h2, h3⟩ :=
    OnTimer_now_never_decreases sampleOps sampleSynchronized _ 9000 20000 [Event.timer 10000]
      (fun sync hsync => by
        cases hsync
        exact ⟨le_refl _, le_refl _⟩)
      (by decide) hrun
  obtain ⟨p2, sync2, hd, hsync2⟩ := h3 _ _ _ rfl rfl rfl
  obtain ⟨h4, h5⟩ := h2 p2 sync2 hd hsync2
  exact ⟨_, _, hrun, rfl, rfl, h1 _ rfl, p2, sync2, hd, hsync2, (h5 _ rfl).1, h4⟩

/-! ## Rounding to a binary floating-point format -/

/-- The floor of a rational is at most the rational. -/
theorem floor_le_self (q : ℚ) : (Rat.floor q : ℚ) ≤ q := Int.floor_le q

/-- A rational is below its floor plus one. -/
theorem self_lt_floor_add_one (q : ℚ) : q < (Rat.floor q : ℚ) + 1 := Int.lt_floor_add_one q

/-- Rounding to the nearest integer moves a rational by at most one half. -/
theorem abs_sub_roundHalfEven_le (q : ℚ) : |q - (roundHalfEven q : ℚ)| ≤ 1 / 2 := by
  have h1 := floor_le_self q
  have h2 := self_lt_floor_add_one q
  unfold roundHalfEven
  rw [abs_le]
  split_ifs with ha hb hc <;> push_cast <;> constructor <;> linarith

/-- An integer at a distance below one half is the nearest integer. -/
theorem roundHalfEven_eq_of_abs_lt (q : ℚ) (n : Int) (h : |q - (n : ℚ)| < 1 / 2) :
    roundHalfEven q = n := by
  have h0 := abs_sub_roundHalfEven_le q
  rw [abs_le] at h0
  rw [abs_lt] at h
  have hlt : |((roundHalfEven q : Int) : ℚ) - (n : ℚ)| < 1 := by
    rw [abs_lt]
    constructor <;> linarith
  have hint : |roundHalfEven q - n| < 1 := by exact_mod_cast hlt
  have := Int.abs_lt_one_iff.mp hint
  omega

/-- An integer rounds to itself. -/
theorem roundHalfEven_intCast (n : Int) : roundHalfEven (n : ℚ) = n :=
  roundHalfEven_eq_of_abs_lt _ n (by simp)

/-- Rounding to the nearest integer is monotone. -/
theorem roundHalfEven_mono {q q1 : ℚ} (h : q ≤ q1) : roundHalfEven q ≤ roundHalfEven q1 := by
  by_contra hlt
  have hlt1 : roundHalfEven q1 + 1 ≤ roundHalfEven q := by omega
  have hq : ((roundHalfEven q1 : Int) : ℚ) + 1 ≤ (roundHalfEven q : ℚ) := by exact_mod_cast hlt1
  have h0 := abs_le.mp (abs_sub_roundHalfEven_le q)
  have h1 := abs_le.mp (abs_sub_roundHalfEven_le q1)
  have heq : q = q1 := by linarith
  rw [heq] at hlt
  exact hlt (le_refl _)

/-- The binary exponent of a positive rational between two consecutive powers
of two. -/
theorem log_two_eq_of_bounds (x : ℚ) (k : Int) (hx : 0 < x) (hlo : (2 : ℚ) ^ k ≤ x)
    (hhi : x < (2 : ℚ) ^ (k + 1)) : Int.log 2 x = k := by
  have h1 : k ≤ Int.log 2 x :=
    (Int.zpow_le_iff_le_log (by norm_num) hx).mp (by exact_mod_cast hlo)
  have h2 : Int.log 2 x < k + 1 :=
    (Int.lt_zpow_iff_log_lt (by norm_num) hx).mp (by exact_mod_cast hhi)
  omega

/-- Evaluation of `roundPositive` from the binary exponent `k` of `x` and the
significand `n` nearest to `x / 2^(k - (precision - 1))`. -/
theorem roundPositive_eq_of_bounds (precision : Nat) (x : ℚ) (k n : Int) (hx : 0 < x)
    (hlo : (2 : ℚ) ^ k ≤ x) (hhi : x < (2 : ℚ) ^ (k + 1))
    (hn : |x / (2 : ℚ) ^ (k - ((precision : Int) - 1)) - (n : ℚ)| < 1 / 2) :
    roundPositive precision x = (n : ℚ) * (2 : ℚ) ^ (k - ((precision : Int) - 1)) := by
  unfold roundPositive
  rw [log_two_eq_of_bounds x k hx hlo hhi, roundHalfEven_eq_of_abs_lt _ n hn]

/-- The rounded value of a positive rational stays between the powers of two
that enclose the rational. -/
theorem roundPositive_bounds (precision : Nat) (x : ℚ) (hp : 1 ≤ precision) (hx : 0 < x) :
    (2 : ℚ) ^ Int.log 2 x ≤ roundPositive precision x ∧
      roundPositive precision x ≤ (2 : ℚ) ^ (Int.log 2 x + 1) := by
  have h2 : (2 : ℚ) ≠ 0 := by norm_num
  have hlo : (2 : ℚ) ^ Int.log 2 x ≤ x := by
    have := Int.zpow_log_le_self (b := 2) (r := x) (by norm_num) hx
    exact_mod_cast this
  have hhi : x < (2 : ℚ) ^ (Int.log 2 x + 1) := by
    have := Int.lt_zpow_succ_log_self (b := 2) (by norm_num) x
    exact_mod_cast this
  have hs : 0 < (2 : ℚ) ^ (Int.log 2 x - ((precision : Int) - 1)) := zpow_pos (by norm_num) _
  have hcast : (((2 : Int) ^ (precision - 1) : Int) : ℚ) = (2 : ℚ) ^ ((precision : Int) - 1) := by
    have hp1 : ((precision : Int) - 1) = ((precision - 1 : Nat) : Int) := by omega
    rw [hp1, zpow_natCast]
    push_cast
    rfl
  have hprod : (2 : ℚ) ^ ((precision : Int) - 1) *
      (2 : ℚ) ^ (Int.log 2 x - ((precision : Int) - 1)) = (2 : ℚ) ^ Int.log 2 x := by
    rw [← zpow_add₀ h2]
    congr 1
    ring
  have hq1 : (((2 : Int) ^ (precision - 1) : Int) : ℚ) ≤
      x / (2 : ℚ) ^ (Int.log 2 x - ((precision : Int) - 1)) := by
    rw [hcast, le_div_iff₀ hs, hprod]
    exact hlo
  have hq2 : x / (2 : ℚ) ^ (Int.log 2 x - ((precision : Int) - 1)) ≤
      ((2 * (2 : Int) ^ (precision - 1) : Int) : ℚ) := by
    rw [div_le_iff₀ hs]
    push_cast
    rw [show (2 : ℚ) * (2 : ℚ) ^ (precision - 1) = (2 : ℚ) * (((2 : Int) ^ (precision - 1) : Int) : ℚ)
      by push_cast; rfl, hcast, mul_assoc, hprod]
    rw [zpow_add_one₀ h2] at hhi
    linarith
  have hr1 := roundHalfEven_mono hq1
  have hr2 := roundHalfEven_mono hq2
  rw [roundHalfEven_intCast] at hr1 hr2
  have hr1q : (((2 : Int) ^ (precision - 1) : Int) : ℚ) ≤
      (roundHalfEven (x / (2 : ℚ) ^ (Int.log 2 x - ((precision : Int) - 1))) : ℚ) := by
    exact_mod_cast hr1
  have hr2q : (roundHalfEven (x / (2 : ℚ) ^ (Int.log 2 x - ((precision : Int) - 1))) : ℚ) ≤
      ((2 * (2 : Int) ^ (precision - 1) : Int) : ℚ) := by
    exact_mod_cast hr2
  unfold roundPositive
  constructor
  · rw [← hprod, ← hcast]
    exact mul_le_mul_of_nonneg_right hr1q (le_of_lt hs)
  · have := mul_le_mul_of_nonneg_right hr2q (le_of_lt hs)
    refine le_trans this ?_
    push_cast
    rw [show (2 : ℚ) * (2 : ℚ) ^ (precision - 1) = (2 : ℚ) * (((2 : Int) ^ (precision - 1) : Int) : ℚ)
      by push_cast; rfl, hcast, mul_assoc, hprod, zpow_add_one₀ h2]
    linarith

/-- A positive rational rounds to a positive value. -/
theorem roundPositive_pos (precision : Nat) (x : ℚ) (hp : 1 ≤ precision) (hx : 0 < x) :
    0 < roundPositive precision x :=
  lt_of_lt_of_le (zpow_pos (by norm_num) _) (roundPositive_bounds precision x hp hx).1

/-- Rounding of positive rationals is monotone. -/
theorem roundPositive_mono (precision : Nat) (x y : ℚ) (hp : 1 ≤ precision) (hx : 0 < x)
    (hxy : x ≤ y) : roundPositive precision x ≤ roundPositive precision y := by
  have hy : 0 < y := lt_of_lt_of_le hx hxy
  have hlog : Int.log 2 x ≤ Int.log 2 y := Int.log_mono_right hx hxy
  rcases eq_or_lt_of_le hlog with heq | hlt
  · unfold roundPositive
    rw [heq]
    have hs : 0 < (2 : ℚ) ^ (Int.log 2 y - ((precision : Int) - 1)) := zpow_pos (by norm_num) _
    have hq : x / (2 : ℚ) ^ (Int.log 2 y - ((precision : Int) - 1)) ≤
        y / (2 : ℚ) ^ (Int.log 2 y - ((precision : Int) - 1)) :=
      div_le_div_of_nonneg_right hxy (le_of_lt hs)
    have hr : (roundHalfEven (x / (2 : ℚ) ^ (Int.log 2 y - ((precision : Int) - 1))) : ℚ) ≤
        (roundHalfEven (y / (2 : ℚ) ^ (Int.log 2 y - ((precision : Int) - 1))) : ℚ) := by
      exact_mod_cast roundHalfEven_mono hq
    exact mul_le_mul_of_nonneg_right hr (le_of_lt hs)
  · have h1 := (roundPositive_bounds precision x hp hx).2
    have h2 := (roundPositive_bounds precision y hp hy).1
    have h3 : (2 : ℚ) ^ (Int.log 2 x + 1) ≤ (2 : ℚ) ^ Int.log 2 y :=
      zpow_le_zpow_right₀ (by norm_num) (by omega)
    linarith

/-- Rounding to a binary floating-point format is monotone. -/
theorem roundBinary_mono (precision : Nat) (hp : 1 ≤ precision) (x y : ℚ) (hxy : x ≤ y) :
    roundBinary precision x ≤ roundBinary precision y := by
  unfold roundBinary
  by_cases hx : 0 < x
  · have hy : 0 < y := lt_of_lt_of_le hx hxy
    rw [if_pos hx, if_pos hy]
    exact roundPositive_mono precision x y hp hx hxy
  · rw [if_neg hx]
    by_cases hx0 : x < 0
    · rw [if_pos hx0]
      have hnx := roundPositive_pos precision (-x) hp (by linarith)
      by_cases hy : 0 < y
      · rw [if_pos hy]
        have := roundPositive_pos precision y hp hy
        linarith
      · rw [if_neg hy]
        by_cases hy0 : y < 0
        · rw [if_pos hy0]
          have := roundPositive_mono precision (-y) (-x) hp (by linarith) (by linarith)
          linarith
        · rw [if_neg hy0]
          linarith
    · rw [if_neg hx0]
      have hxz : x = 0 := le_antisymm (not_lt.mp hx) (not_lt.mp hx0)
      by_cases hy : 0 < y
      · rw [if_pos hy]
        exact le_of_lt (roundPositive_pos precision y hp hy)
      · rw [if_neg hy]
        have hy0 : ¬ y < 0 := by
          intro h
          linarith
        rw [if_neg hy0]

/-- Zero rounds to zero. -/
theorem roundBinary_zero (precision : Nat) : roundBinary precision 0 = 0 := by
  simp [roundBinary]

/-- Evaluation of `roundBinary` at a positive rational. -/
theorem roundBinary_eq_of_pos (precision : Nat) (x : ℚ) (k n : Int) (hx : 0 < x)
    (hlo : (2 : ℚ) ^ k ≤ x) (hhi : x < (2 : ℚ) ^ (k + 1))
    (hn : |x / (2 : ℚ) ^ (k - ((precision : Int) - 1)) - (n : ℚ)| < 1 / 2) :
    roundBinary precision x = (n : ℚ) * (2 : ℚ) ^ (k - ((precision : Int) - 1)) := by
  unfold roundBinary
  rw [if_pos hx, roundPositive_eq_of_bounds precision x k n hx hlo hhi hn]

/-- Evaluation of `roundBinary` at a negative rational. -/
theorem roundBinary_eq_of_neg (precision : Nat) (x : ℚ) (k n : Int) (hx : x < 0)
    (hlo : (2 : ℚ) ^ k ≤ -x) (hhi : -x < (2 : ℚ) ^ (k + 1))
    (hn : |-x / (2 : ℚ) ^ (k - ((precision : Int) - 1)) - (n : ℚ)| < 1 / 2) :
    roundBinary precision x = -((n : ℚ) * (2 : ℚ) ^ (k - ((precision : Int) - 1))) := by
  unfold roundBinary
  rw [if_neg (by linarith), if_pos hx,
    roundPositive_eq_of_bounds precision (-x) k n (by linarith) hlo hhi hn]

/-- The constant `0.2f`: the single-precision number nearest to 0.2 is
`13421773 / 2^26`, slightly above 0.2. -/
theorem displayDelay_ieee : displayDelay ieeeArithmetic = 13421773 / 67108864 := by
  show roundBinary 24 (1 / 5) = 13421773 / 67108864
  rw [roundBinary_eq_of_pos 24 (1 / 5) (-3) 13421773 (by norm_num) (by norm_num) (by norm_num)
    (by norm_num [abs_lt])]
  norm_num

/-! ## Display pixel -/

/-- In exact arithmetic the pixel is `w - 1 - (e - 0.2) * w / maxTimeSeconds`. -/
theorem GetDisplayPixel_exact (maxTimeSeconds e : ℚ) (w : Int) :
    GetDisplayPixel exactArithmetic maxTimeSeconds e w =
      w - 1 - (e - 1 / 5) * w / maxTimeSeconds := by
  simp only [GetDisplayPixel, displayDelay, exactArithmetic]
  push_cast
  by_cases hw : (w : ℚ) = 0
  · simp [hw]
  · by_cases hm : maxTimeSeconds = 0
    · simp [hm]
    · field_simp

/-- With a rounding that is monotone and keeps zero, a later elapsed time gets
the same pixel or a smaller one. -/
theorem GetDisplayPixel_mono_time (fp : Rounding) (maxTimeSeconds : ℚ) (w : Int) (e e1 : ℚ)
    (hmax : 0 < maxTimeSeconds) (hw : 0 < w)
    (hfloat : ∀ x y, x ≤ y → fp.toFloat x ≤ fp.toFloat y)
    (hdouble : ∀ x y, x ≤ y → fp.toDouble x ≤ fp.toDouble y)
    (hzero : fp.toDouble 0 = 0) (hle : e ≤ e1) :
    GetDisplayPixel fp maxTimeSeconds e1 w ≤ GetDisplayPixel fp maxTimeSeconds e w := by
  have hwq : (0 : ℚ) < (w : ℚ) := by exact_mod_cast hw
  have h1 : 0 ≤ fp.toDouble (1 * maxTimeSeconds) := by
    have := hdouble 0 (1 * maxTimeSeconds) (by linarith)
    rwa [hzero] at this
  have h2 : 0 ≤ fp.toDouble (fp.toDouble (1 * maxTimeSeconds) / w) := by
    have := hdouble 0 (fp.toDouble (1 * maxTimeSeconds) / w) (div_nonneg h1 (le_of_lt hwq))
    rwa [hzero] at this
  unfold GetDisplayPixel
  apply hdouble
  apply sub_le_sub_left
  apply hdouble
  apply div_le_div_of_nonneg_right _ h2
  apply hfloat
  linarith

/-- C12, as amended (display delay). For a positive history window
`maxTimeSeconds` and a panel width `w > 0`. In exact arithmetic
`GetDisplayPixel(e, w) = w - 1 - (e - 0.2) * w / maxTimeSeconds`, the elapsed
time 0.2 s is placed on pixel `w - 1`, the elapsed time `0.2 + maxTimeSeconds`
on pixel `-1`, and a larger elapsed time gets a strictly smaller pixel. With
every operation rounded, by a rounding that is monotone and keeps 0 and `w - 1`
as the rounding of the program does, the elapsed time equal to the display
delay `0.2f` is placed on pixel `w - 1`, and a larger elapsed time gets the
same pixel or a smaller one. -/
theorem GetDisplayPixel_display_delay (fp : Rounding) (maxTimeSeconds : ℚ) (w : Int)
    (e e1 : ℚ) (hmax : 0 < maxTimeSeconds) (hw : 0 < w)
    (hfloat : ∀ x y, x ≤ y → fp.toFloat x ≤ fp.toFloat y)
    (hdouble : ∀ x y, x ≤ y → fp.toDouble x ≤ fp.toDouble y)
    (hfloatZero : fp.toFloat 0 = 0) (hdoubleZero : fp.toDouble 0 = 0)
    (hwidth : fp.toDouble ((w - 1 : Int) : ℚ) = ((w - 1 : Int) : ℚ)) :
    GetDisplayPixel exactArithmetic maxTimeSeconds e w =
      w - 1 - (e - 1 / 5) * w / maxTimeSeconds ∧
    GetDisplayPixel exactArithmetic maxTimeSeconds (1 / 5) w = w - 1 ∧
    GetDisplayPixel exactArithmetic maxTimeSeconds (1 / 5 + maxTimeSeconds) w = -1 ∧
    (e < e1 → GetDisplayPixel exactArithmetic maxTimeSeconds e1 w <
      GetDisplayPixel exactArithmetic maxTimeSeconds e w) ∧
    GetDisplayPixel fp maxTimeSeconds (displayDelay fp) w = w - 1 ∧
    (e ≤ e1 → GetDisplayPixel fp maxTimeSeconds e1 w ≤ GetDisplayPixel fp maxTimeSeconds e w) := by
  have hwq : (0 : ℚ) < (w : ℚ) := by exact_mod_cast hw
  refine ⟨GetDisplayPixel_exact maxTimeSeconds e w, ?_, ?_, ?_, ?_, ?_⟩
  · rw [GetDisplayPixel_exact]
    simp
  · rw [GetDisplayPixel_exact]
    field_simp
  · intro hlt
    rw [GetDisplayPixel_exact, GetDisplayPixel_exact]
    have hpos : 0 < (w : ℚ) / maxTimeSeconds := div_pos hwq hmax
    have hmul : (e - 1 / 5) * ((w : ℚ) / maxTimeSeconds) <
        (e1 - 1 / 5) * ((w : ℚ) / maxTimeSeconds) :=
      mul_lt_mul_of_pos_right (by linarith) hpos
    have h1 : (e - 1 / 5) * (w : ℚ) / maxTimeSeconds =
        (e - 1 / 5) * ((w : ℚ) / maxTimeSeconds) := by ring
    have h2 : (e1 - 1 / 5) * (w : ℚ) / maxTimeSeconds =
        (e1 - 1 / 5) * ((w : ℚ) / maxTimeSeconds) := by ring
    rw [h1, h2]
    linarith
  · simp only [GetDisplayPixel, sub_self, hfloatZero, zero_div, hdoubleZero, sub_zero, hwidth]
    push_cast
    ring
  · exact GetDisplayPixel_mono_time fp maxTimeSeconds w e e1 hmax hw hfloat hdouble
      hdoubleZero

/-- Witness of C12 as amended: the rounding of the program, a window of 2.5 s
and a panel 600 pixels wide; the elapsed times are the single-precision number
`0.01f = 10737418 / 2^30` and the next one. -/
theorem GetDisplayPixel_display_delay_witness :
    GetDisplayPixel exactArithmetic (5 / 2) (1 / 5) 600 = 599 ∧
    GetDisplayPixel ieeeArithmetic (5 / 2) (displayDelay ieeeArithmetic) 600 = 599 ∧
    GetDisplayPixel ieeeArithmetic (5 / 2) (10737419 / 1073741824) 600 ≤
      GetDisplayPixel ieeeArithmetic (5 / 2) (10737418 / 1073741824) 600 := by
  obtain ⟨_, h2, _, _, h5, h6⟩ :=
    GetDisplayPixel_display_delay ieeeArithmetic (5 / 2) 600
      (10737418 / 1073741824) (10737419 / 1073741824) (by norm_num) (by decide)
      (roundBinary_mono 24 (by decide)) (roundBinary_mono 53 (by decide))
      (roundBinary_zero 24) (roundBinary_zero 53)
      (by
        show roundBinary 53 (((600 - 1 : Int) : ℚ)) = ((600 - 1 : Int) : ℚ)
        rw [roundBinary_eq_of_pos 53 _ 9 5268859720302592 (by norm_num) (by norm_num)
          (by norm_num) (by norm_num [abs_lt])]
        norm_num)
  refine ⟨?_, ?_, h6 (by norm_num)⟩
  · rw [h2]
    norm_num
  · rw [h5]
    norm_num

/-- Counterexample to C12 as stated: with the rounding of the program, a window
of 2.5 s and a panel 600 pixels wide, the single-precision elapsed times
`0.01f = 10737418 / 2^30` and the next single-precision number
`10737419 / 2^30` get the same pixel `675912089 / 2^20`, about 644.5999994: the
single-precision subtraction of `0.2f` rounds both differences to
`-12750684 / 2^26`. The pixel is not strictly decreasing in the elapsed time. -/
theorem GetDisplayPixel_equal_pixels_counterexample :
    (10737418 / 1073741824 : ℚ) < 10737419 / 1073741824 ∧
    ieeeArithmetic.toFloat (10737418 / 1073741824) = 10737418 / 1073741824 ∧
    ieeeArithmetic.toFloat (10737419 / 1073741824) = 10737419 / 1073741824 ∧
    GetDisplayPixel ieeeArithmetic (5 / 2) (10737418 / 1073741824) 600 = 675912089 / 1048576 ∧
    GetDisplayPixel ieeeArithmetic (5 / 2) (10737419 / 1073741824) 600 = 675912089 / 1048576 := by
  have hsub : roundBinary 24 (10737418 / 1073741824 - 13421773 / 67108864) =
      -(12750684 / 67108864) := by
    rw [roundBinary_eq_of_neg 24 _ (-3) 12750684 (by norm_num) (by norm_num) (by norm_num)
      (by norm_num [abs_lt])]
    norm_num
  have hsub1 : roundBinary 24 (10737419 / 1073741824 - 13421773 / 67108864) =
      -(12750684 / 67108864) := by
    rw [roundBinary_eq_of_neg 24 _ (-3) 12750684 (by norm_num) (by norm_num) (by norm_num)
      (by norm_num [abs_lt])]
    norm_num
  have hwindow : roundBinary 53 (1 * (5 / 2)) = 5 / 2 := by
    rw [roundBinary_eq_of_pos 53 _ 1 5629499534213120 (by norm_num) (by norm_num) (by norm_num)
      (by norm_num [abs_lt])]
    norm_num
  have hspp : roundBinary 53 (5 / 2 / ((600 : Int) : ℚ)) =
      4803839602528529 / 1152921504606846976 := by
    rw [roundBinary_eq_of_pos 53 _ (-8) 4803839602528529 (by norm_num) (by norm_num)
      (by norm_num) (by norm_num [abs_lt])]
    norm_num
  have hquot : roundBinary 53
      (-(12750684 / 67108864) / (4803839602528529 / 1152921504606846976)) =
      -(47815065 / 1048576) := by
    rw [roundBinary_eq_of_neg 53 _ 5 6417629388472320 (by norm_num) (by norm_num)
      (by norm_num) (by norm_num [abs_lt])]
    norm_num
  have hpixel : roundBinary 53 (((600 - 1 : Int) : ℚ) - -(47815065 / 1048576)) =
      675912089 / 1048576 := by
    rw [roundBinary_eq_of_pos 53 _ 9 5669961557082112 (by norm_num) (by norm_num)
      (by norm_num) (by norm_num [abs_lt])]
    norm_num
  refine ⟨by norm_num, ?_, ?_, ?_, ?_⟩
  · show roundBinary 24 (10737418 / 1073741824) = 10737418 / 1073741824
    rw [roundBinary_eq_of_pos 24 _ (-7) 10737418 (by norm_num) (by norm_num) (by norm_num)
      (by norm_num [abs_lt])]
    norm_num
  · show roundBinary 24 (10737419 / 1073741824) = 10737419 / 1073741824
    rw [roundBinary_eq_of_pos 24 _ (-7) 10737419 (by norm_num) (by norm_num) (by norm_num)
      (by norm_num [abs_lt])]
    norm_num
  · unfold GetDisplayPixel
    rw [displayDelay_ieee]
    show roundBinary 53 (((600 - 1 : Int) : ℚ) -
      roundBinary 53 (roundBinary 24 (10737418 / 1073741824 - 13421773 / 67108864) /
        roundBinary 53 (roundBinary 53 (1 * (5 / 2)) / ((600 : Int) : ℚ)))) = _
    rw [hsub, hwindow, hspp, hquot, hpixel]
  · unfold GetDisplayPixel
    rw [displayDelay_ieee]
    show roundBinary 53 (((600 - 1 : Int) : ℚ) -
      roundBinary 53 (roundBinary 24 (10737419 / 1073741824 - 13421773 / 67108864) /
        roundBinary 53 (roundBinary 53 (1 * (5 / 2)) / ((600 : Int) : ℚ)))) = _
    rw [hsub1, hwindow, hspp, hquot, hpixel]

/-! ## Queue capacity -/

/-- C14, as amended (data-updated notification). A tick requests a repaint
once exactly when the history is non-empty after the push, whether or not the
drain yielded a packet, and requests none when the history is empty. -/
theorem OnTimer_repaint_iff_history_nonempty {H P : Type} (ops : HistoryOps H P)
    (now : Int) (p : Panel H P) (q : OutputPacketQueue P) (h : H)
    (hq : p.mOutputQueue = some q) (hh : p.mHistory = some h)
    (hdefined : ops.IsEmpty (ops.Push h q.items) = true ∨ p.mSync ≠ none ∨
      frontFront (ops.GetSegments (ops.Push h q.items)) ≠ none) :
    ∃ p1, OnTimer ops now p = some p1 ∧
      p1.refreshCount =
        p.refreshCount + (if ops.IsEmpty (ops.Push h q.items) = true then 0 else 1) := by
  cases hempty : ops.IsEmpty (ops.Push h q.items) with
  | true => exact ⟨_, OnTimer_of_empty ops now p q h hq hh hempty, by simp⟩
  | false =>
    cases hsync : p.mSync with
    | some sync =>
      exact ⟨_, OnTimer_of_synchronized ops now p q h sync hq hh hempty hsync, by simp⟩
    | none =>
      cases hfirst : frontFront (ops.GetSegments (ops.Push h q.items)) with
      | some first =>
        exact ⟨_, OnTimer_of_first_data ops now p q h first hq hh hempty hsync hfirst,
          by simp⟩
      | none =>
        rcases hdefined with hd | hd | hd
        · rw [hempty] at hd
          cases hd
        · exact absurd hsync hd
        · exact absurd hfirst hd

/-- Witness of C14 as amended: a tick on the synchronized sample panel, whose
queue holds one packet, raises the count of repaint requests from 2 to 3. -/
theorem OnTimer_repaint_iff_history_nonempty_witness :
    ∃ p1, OnTimer sampleOps 10000 sampleSynchronized = some p1 ∧ p1.refreshCount = 3 := by
  obtain ⟨p1, h1, h2⟩ :=
    OnTimer_repaint_iff_history_nonempty sampleOps 10000 sampleSynchronized
      { id := 0, capacity := 1102, items := [samplePacket (1 / 2)] }
      { segments := [[samplePacket (1 / 4)]], beginNewSegment := false }
      rfl rfl (Or.inr (Or.inl (by simp [sampleSynchronized])))
  refine ⟨p1, h1, ?_⟩
  rw [h2]
  have hdata : sampleOps.IsEmpty (sampleOps.Push
      { segments := [[samplePacket (1 / 4)]], beginNewSegment := false }
      [samplePacket (1 / 2)]) = false := by
    norm_num [sampleOps, specHistoryOps, SpecHistory.push, SpecHistory.append,
      SpecHistory.trim, samplePacket, List.dropWhile]
  show sampleSynchronized.refreshCount +
      (if sampleOps.IsEmpty (sampleOps.Push
          { segments := [[samplePacket (1 / 4)]], beginNewSegment := false }
          [samplePacket (1 / 2)]) = true then 0 else 1) = 3
  rw [hdata]
  rfl

/-- Counterexample to C14 as stated: the synchronized sample panel with an
empty queue receives a tick. The drain yields no packet (the buffer is empty
after the tick), yet the history still holds the earlier packet and the tick
requests a repaint: the count goes from 2 to 3. -/
theorem OnTimer_repaint_without_new_data_counterexample :
    ∃ p1,
      OnTimer sampleOps 10000
        { sampleSynchronized with
            mOutputQueue := some { id := 0, capacity := 1102, items := [] } } = some p1 ∧
      p1.mPacketBuffer = [] ∧ sampleSynchronized.refreshCount = 2 ∧ p1.refreshCount = 3 := by
  have h1 := OnTimer_of_synchronized sampleOps 10000
    { sampleSynchronized with
        mOutputQueue := some { id := 0, capacity := 1102, items := [] } }
    { id := 0, capacity := 1102, items := [] }
    { segments := [[samplePacket (1 / 4)]], beginNewSegment := false }
    { firstPacketTime := 27 / 100, start := 9000, now := 9000 } rfl rfl
    (by simp [sampleOps, specHistoryOps, SpecHistory.push])
    rfl
  exact ⟨_, h1, rfl, rfl, rfl⟩

/-! ## Idle state of `OnPaint` -/

/-- C15 (uninitialized read is an idle state). `OnPaint` returns the idle
state with the text "awaiting playback" exactly when the history or the
synchronization is absent and the playback-about-to-start flag is false, and
the idle state without the text exactly when one of them is absent and the flag
is true; the idle state carries no segment and no display offset. Segments are
plotted only when the history and the synchronization are both present. This
holds whatever the rounding of the floating-point operations. -/
theorem OnPaint_idle_iff_uninitialized {H P : Type} (fp : Rounding) (ops : HistoryOps H P)
    (minHeight : Int) (minRangeDb : ℚ) (width height : Int)
    (mShowOvershoot mShowUndershoot : Bool) (p : Panel H P) :
    (OnPaint fp ops minHeight minRangeDb width height mShowOvershoot mShowUndershoot p =
        some (Painted.idle true) ↔
      (p.mHistory = none ∨ p.mSync = none) ∧ p.mPlaybackAboutToStart = false) ∧
    (OnPaint fp ops minHeight minRangeDb width height mShowOvershoot mShowUndershoot p =
        some (Painted.idle false) ↔
      (p.mHistory = none ∨ p.mSync = none) ∧ p.mPlaybackAboutToStart = true) ∧
    ((∃ plots, OnPaint fp ops minHeight minRangeDb width height mShowOvershoot mShowUndershoot p =
        some (Painted.segments plots)) →
      p.mHistory ≠ none ∧ p.mSync ≠ none) := by
  unfold OnPaint
  cases hh : p.mHistory with
  | none => cases hflag : p.mPlaybackAboutToStart <;> simp
  | some h =>
    cases hs : p.mSync with
    | none => cases hflag : p.mPlaybackAboutToStart <;> simp
    | some sync =>
      simp only
      cases paintSegments fp ops.maxTimeSeconds
        (GetDbRange minHeight minRangeDb height / (height : ℚ)) width mShowOvershoot
        mShowUndershoot sync (ops.GetSegments h) <;> simp

/-! ## Crossings -/

/-- No crossing is detected against the value just stored in `aWasBelow`. -/
theorem isCrossing_some_self (b : Bool) : isCrossing (some b) b = false := by
  simp [isCrossing]

/-- The loop of `InsertCrossings` on lists of equal length terminates with the
points of `insertedPoints` woven into the remaining part of both lists. -/
theorem InsertCrossingsLoop_eq (fp : Rounding) (restA : List Point) :
    ∀ (restB : List Point) (aWasBelow : Option Bool) (x0 y0_a y0_b : ℚ)
      (doneA doneB : List Point), restA.length = restB.length →
      InsertCrossingsLoop fp aWasBelow x0 y0_a y0_b doneA doneB restA restB =
        some (doneA ++ weave (insertedPoints fp aWasBelow x0 y0_a y0_b restA restB) restA,
          doneB ++ weave (insertedPoints fp aWasBelow x0 y0_a y0_b restA restB) restB) := by
  induction restA with
  | nil =>
    intro restB aWasBelow x0 y0_a y0_b doneA doneB hlen
    cases restB with
    | nil =>
      rw [InsertCrossingsLoop]
      simp [insertedPoints, weave]
    | cons b bs => simp at hlen
  | cons a as ih =>
    intro restB aWasBelow x0 y0_a y0_b doneA doneB hlen
    cases restB with
    | nil => simp at hlen
    | cons b bs =>
      have hlen1 : as.length = bs.length := by simpa using hlen
      cases hcross : isCrossing aWasBelow (decide (a.m_y < b.m_y)) with
      | false =>
        rw [InsertCrossingsLoop]
        simp only [hcross, Bool.false_eq_true, dite_false]
        rw [ih bs _ _ _ _ _ _ hlen1]
        simp [insertedPoints, weave, hcross]
      | true =>
        rw [InsertCrossingsLoop]
        simp only [hcross, dite_true]
        rw [InsertCrossingsLoop]
        simp only [isCrossing_some_self, Bool.false_eq_true, dite_false]
        rw [ih bs _ _ _ _ _ _ hlen1]
        simp [insertedPoints, weave, hcross]

/-- There is one entry of `insertedPoints` for each index. -/
theorem insertedPoints_length (fp : Rounding) (A : List Point) :
    ∀ (B : List Point) (aWasBelow : Option Bool) (x0 y0_a y0_b : ℚ),
      A.length = B.length → (insertedPoints fp aWasBelow x0 y0_a y0_b A B).length = A.length := by
  induction A with
  | nil => intro B _ _ _ _ _; cases B <;> simp [insertedPoints]
  | cons a as ih =>
    intro B aWasBelow x0 y0_a y0_b hlen
    cases B with
    | nil => simp at hlen
    | cons b bs =>
      simp only [insertedPoints, List.length_cons]
      rw [ih bs _ _ _ _ (by simpa using hlen)]

/-- Weaving adds one element for each point to insert. -/
theorem weave_length (inserted : List (Option Point)) :
    ∀ points : List Point, inserted.length = points.length →
      (weave inserted points).length =
        points.length + inserted.countP (fun o => o.isSome) := by
  induction inserted with
  | nil => intro points _; simp [weave]
  | cons o os ih =>
    intro points hlen
    cases points with
    | nil => simp at hlen
    | cons a as =>
      have := ih as (by simpa using hlen)
      cases o <;> simp [weave, this, List.countP_cons] <;> omega

/-- Weaving keeps the points of the list, in their order. -/
theorem sublist_weave (inserted : List (Option Point)) :
    ∀ points : List Point, points.Sublist (weave inserted points) := by
  induction inserted with
  | nil => intro points; simp [weave]
  | cons o os ih =>
    intro points
    cases points with
    | nil => simp [weave]
    | cons a as =>
      cases o with
      | none => simpa [weave] using (ih as)
      | some pt =>
        simp only [weave, Option.toList, List.singleton_append]
        exact List.Sublist.cons _ ((ih as).cons₂ a)

/-- The number of points to insert is the number of changes of the predicate
`A[i].y < B[i].y`, counted from the value stored in `aWasBelow`. -/
theorem countP_insertedPoints (fp : Rounding) (A : List Point) :
    ∀ (B : List Point) (aWasBelow : Option Bool) (x0 y0_a y0_b : ℚ),
      A.length = B.length →
      (insertedPoints fp aWasBelow x0 y0_a y0_b A B).countP (fun o => o.isSome) =
        changes (aWasBelow.toList ++ belowFlags A B) := by
  induction A with
  | nil =>
    intro B aWasBelow _ _ _ _
    cases B <;> cases aWasBelow <;> simp [insertedPoints, belowFlags, changes]
  | cons a as ih =>
    intro B aWasBelow x0 y0_a y0_b hlen
    cases B with
    | nil => simp at hlen
    | cons b bs =>
      have h1 := ih bs (some (decide (a.m_y < b.m_y))) a.m_x a.m_y b.m_y (by simpa using hlen)
      simp only [insertedPoints, List.countP_cons, h1]
      cases aWasBelow with
      | none => simp [isCrossing, belowFlags, changes]
      | some w =>
        simp only [Option.toList, belowFlags, List.zipWith_cons_cons, List.singleton_append,
          changes, isCrossing]
        by_cases hw : w = decide (a.m_y < b.m_y)
        · simp [hw]
        · simp [hw]
          omega

/-- The entry of `insertedPoints` at an index `i + 1`: the crossing point of the
points at `i` and `i + 1` when the predicate differs there, nothing otherwise. -/
theorem insertedPoints_get?_succ (fp : Rounding) (i : Nat) :
    ∀ (A B : List Point) (aWasBelow : Option Bool) (x0 y0_a y0_b : ℚ) (a0 b0 a2 b2 : Point),
      A.get? i = some a0 → B.get? i = some b0 →
      A.get? (i + 1) = some a2 → B.get? (i + 1) = some b2 →
      (insertedPoints fp aWasBelow x0 y0_a y0_b A B).get? (i + 1) =
        some (if decide (a0.m_y < b0.m_y) ≠ decide (a2.m_y < b2.m_y) then
          some (crossingPoint fp a0.m_x a0.m_y b0.m_y a2.m_x a2.m_y b2.m_y) else none) := by
  induction i with
  | zero =>
    intro A B aWasBelow x0 y0_a y0_b a0 b0 a2 b2 hA0 hB0 hA2 hB2
    match A, B, hA0, hB0, hA2, hB2 with
    | a :: a' :: as, b :: b' :: bs, hA0, hB0, hA2, hB2 =>
      simp only [List.get?_cons_zero, List.get?_cons_succ, Option.some.injEq] at hA0 hB0 hA2 hB2
      subst hA0 hB0 hA2 hB2
      simp [insertedPoints, isCrossing]
  | succ i ih =>
    intro A B aWasBelow x0 y0_a y0_b a0 b0 a2 b2 hA0 hB0 hA2 hB2
    match A, B, hA0, hB0, hA2, hB2 with
    | a :: as, b :: bs, hA0, hB0, hA2, hB2 =>
      simp only [List.get?_cons_succ] at hA0 hB0 hA2 hB2
      simp only [insertedPoints, List.get?_cons_succ]
      exact ih as bs _ _ _ _ a0 b0 a2 b2 hA0 hB0 hA2 hB2

/-- In exact arithmetic the divisor is `y2_b - y0_b + y0_a - y2_a`. -/
theorem crossingDivisor_exact (y0_a y0_b y2_a y2_b : ℚ) :
    crossingDivisor exactArithmetic y0_a y0_b y2_a y2_b = y2_b - y0_b + y0_a - y2_a := rfl

/-- In exact arithmetic, when `a < b` differs at the two ends, the divisor is
not zero and the fraction `(y0_a - y0_b) / divisor` lies between 0 and 1. -/
theorem crossing_fraction (y0_a y0_b y2_a y2_b : ℚ)
    (hcross : decide (y0_a < y0_b) ≠ decide (y2_a < y2_b)) :
    crossingDivisor exactArithmetic y0_a y0_b y2_a y2_b ≠ 0 ∧
    0 ≤ (y0_a - y0_b) / crossingDivisor exactArithmetic y0_a y0_b y2_a y2_b ∧
    (y0_a - y0_b) / crossingDivisor exactArithmetic y0_a y0_b y2_a y2_b ≤ 1 := by
  rw [crossingDivisor_exact]
  by_cases h0 : y0_a < y0_b
  · have h2 : ¬ y2_a < y2_b := by
      intro h2
      exact hcross (by simp [h0, h2])
    have hD : y2_b - y0_b + y0_a - y2_a < 0 := by linarith [not_lt.mp h2]
    refine ⟨ne_of_lt hD, ?_, ?_⟩
    · exact div_nonneg_of_nonpos (by linarith) (le_of_lt hD)
    · rw [div_le_one_of_neg hD]
      linarith [not_lt.mp h2]
  · have h2 : y2_a < y2_b := by
      by_contra h2
      exact hcross (by simp [h0, h2])
    have hD : 0 < y2_b - y0_b + y0_a - y2_a := by linarith [not_lt.mp h0]
    refine ⟨ne_of_gt hD, ?_, ?_⟩
    · exact div_nonneg (by linarith [not_lt.mp h0]) (le_of_lt hD)
    · rw [div_le_one hD]
      linarith

/-- In exact arithmetic the crossing point lies on both segments and between
the two abscissas. -/
theorem crossingPoint_spec (x0 y0_a y0_b x2 y2_a y2_b : ℚ) (hx : x0 ≠ x2)
    (hcross : decide (y0_a < y0_b) ≠ decide (y2_a < y2_b)) :
    (crossingPoint exactArithmetic x0 y0_a y0_b x2 y2_a y2_b).m_y =
      y0_a + ((crossingPoint exactArithmetic x0 y0_a y0_b x2 y2_a y2_b).m_x - x0) / (x2 - x0) *
        (y2_a - y0_a) ∧
    (crossingPoint exactArithmetic x0 y0_a y0_b x2 y2_a y2_b).m_y =
      y0_b + ((crossingPoint exactArithmetic x0 y0_a y0_b x2 y2_a y2_b).m_x - x0) / (x2 - x0) *
        (y2_b - y0_b) ∧
    min x0 x2 ≤ (crossingPoint exactArithmetic x0 y0_a y0_b x2 y2_a y2_b).m_x ∧
    (crossingPoint exactArithmetic x0 y0_a y0_b x2 y2_a y2_b).m_x ≤ max x0 x2 := by
  obtain ⟨hD, ht0, ht1⟩ := crossing_fraction y0_a y0_b y2_a y2_b hcross
  rw [crossingDivisor_exact] at hD ht0 ht1
  have hx2 : x2 - x0 ≠ 0 := sub_ne_zero.mpr (Ne.symm hx)
  have hmx : (crossingPoint exactArithmetic x0 y0_a y0_b x2 y2_a y2_b).m_x =
      x0 + (x2 - x0) * ((y0_a - y0_b) / (y2_b - y0_b + y0_a - y2_a)) := by
    simp only [crossingPoint, crossingDivisor, exactArithmetic]
    ring
  have hmy : (crossingPoint exactArithmetic x0 y0_a y0_b x2 y2_a y2_b).m_y =
      y0_a + ((crossingPoint exactArithmetic x0 y0_a y0_b x2 y2_a y2_b).m_x - x0) / (x2 - x0) *
        (y2_a - y0_a) := rfl
  have hfrac : ((crossingPoint exactArithmetic x0 y0_a y0_b x2 y2_a y2_b).m_x - x0) / (x2 - x0) =
      (y0_a - y0_b) / (y2_b - y0_b + y0_a - y2_a) := by
    rw [hmx]
    field_simp
    ring
  refine ⟨hmy, ?_, ?_, ?_⟩
  · rw [hmy, hfrac]
    field_simp
    ring
  · rw [hmx]
    rcases le_total x0 x2 with hle | hle
    · rw [min_eq_left hle]
      have := mul_nonneg (sub_nonneg.mpr hle) ht0
      linarith
    · rw [min_eq_right hle]
      have := mul_le_mul_of_nonpos_left ht1 (sub_nonpos.mpr hle)
      linarith
  · rw [hmx]
    rcases le_total x0 x2 with hle | hle
    · rw [max_eq_right hle]
      have := mul_le_mul_of_nonneg_left ht1 (sub_nonneg.mpr hle)
      linarith
    · rw [max_eq_left hle]
      have := mul_nonpos_of_nonpos_of_nonneg (sub_nonpos.mpr hle) ht0
      linarith

/-- Where the predicate `A[i].y < B[i].y` differs between the indices `i` and
`i + 1`, the woven lists hold the crossing point of the points at these indices
between them, after prefixes of the same length in both lists. -/
theorem weave_insertedPoints_at (fp : Rounding) (i : Nat) :
    ∀ (A B : List Point) (aWasBelow : Option Bool) (x0 y0_a y0_b : ℚ) (a0 b0 a2 b2 : Point),
      A.get? i = some a0 → B.get? i = some b0 →
      A.get? (i + 1) = some a2 → B.get? (i + 1) = some b2 →
      decide (a0.m_y < b0.m_y) ≠ decide (a2.m_y < b2.m_y) →
      ∃ preA postA preB postB : List Point,
        weave (insertedPoints fp aWasBelow x0 y0_a y0_b A B) A =
          preA ++ [a0, crossingPoint fp a0.m_x a0.m_y b0.m_y a2.m_x a2.m_y b2.m_y, a2] ++ postA ∧
        weave (insertedPoints fp aWasBelow x0 y0_a y0_b A B) B =
          preB ++ [b0, crossingPoint fp a0.m_x a0.m_y b0.m_y a2.m_x a2.m_y b2.m_y, b2] ++ postB ∧
        preA.length = preB.length := by
  induction i with
  | zero =>
    intro A B aWasBelow x0 y0_a y0_b a0 b0 a2 b2 hA0 hB0 hA2 hB2 hcross
    match A, B, hA0, hB0, hA2, hB2 with
    | a :: a' :: as, b :: b' :: bs, hA0, hB0, hA2, hB2 =>
      simp only [List.get?_cons_zero, List.get?_cons_succ, Option.some.injEq] at hA0 hB0 hA2 hB2
      subst hA0 hB0 hA2 hB2
      have hcr : isCrossing (some (decide (a.m_y < b.m_y))) (decide (a'.m_y < b'.m_y)) = true := by
        simpa [isCrossing] using hcross
      refine ⟨(if isCrossing aWasBelow (decide (a.m_y < b.m_y)) then
          some (crossingPoint fp x0 y0_a y0_b a.m_x a.m_y b.m_y) else none).toList,
        weave (insertedPoints fp (some (decide (a'.m_y < b'.m_y))) a'.m_x a'.m_y b'.m_y as bs) as,
        (if isCrossing aWasBelow (decide (a.m_y < b.m_y)) then
          some (crossingPoint fp x0 y0_a y0_b a.m_x a.m_y b.m_y) else none).toList,
        weave (insertedPoints fp (some (decide (a'.m_y < b'.m_y))) a'.m_x a'.m_y b'.m_y as bs) bs,
        ?_, ?_, rfl⟩
      · simp only [insertedPoints, hcr, if_true, weave]
        simp
      · simp only [insertedPoints, hcr, if_true, weave]
        simp
  | succ i ih =>
    intro A B aWasBelow x0 y0_a y0_b a0 b0 a2 b2 hA0 hB0 hA2 hB2 hcross
    match A, B, hA0, hB0, hA2, hB2 with
    | a :: as, b :: bs, hA0, hB0, hA2, hB2 =>
      simp only [List.get?_cons_succ] at hA0 hB0 hA2 hB2
      obtain ⟨preA, postA, preB, postB, hA, hB, hpre⟩ :=
        ih as bs (some (decide (a.m_y < b.m_y))) a.m_x a.m_y b.m_y a0 b0 a2 b2
          hA0 hB0 hA2 hB2 hcross
      refine ⟨(if isCrossing aWasBelow (decide (a.m_y < b.m_y)) then
          some (crossingPoint fp x0 y0_a y0_b a.m_x a.m_y b.m_y) else none).toList ++ a :: preA,
        postA,
        (if isCrossing aWasBelow (decide (a.m_y < b.m_y)) then
          some (crossingPoint fp x0 y0_a y0_b a.m_x a.m_y b.m_y) else none).toList ++ b :: preB,
        postB, ?_, ?_, ?_⟩
      · simp only [insertedPoints, weave, hA]
        simp
      · simp only [insertedPoints, weave, hB]
        simp
      · simp [hpre]

/-- C16 (InsertCrossings keeps the two lists aligned). Whatever the rounding,
`InsertCrossings` returns; when the two lists have the same size on entry they
have the same size on return, and when the sizes differ both lists are returned
unchanged. -/
theorem InsertCrossings_keeps_sizes_aligned (fp : Rounding) (A B : List Point) :
    ∃ A1 B1, InsertCrossings fp A B = some (A1, B1) ∧
      (A.length = B.length → A1.length = B1.length) ∧
      (A.length ≠ B.length → A1 = A ∧ B1 = B) := by
  by_cases hlen : A.length = B.length
  · refine ⟨weave (insertedPoints fp none 0 0 0 A B) A,
      weave (insertedPoints fp none 0 0 0 A B) B,
      ?_, fun _ => ?_, fun hne => absurd hlen hne⟩
    · unfold InsertCrossings
      rw [if_neg (not_not.mpr hlen), InsertCrossingsLoop_eq fp A B none 0 0 0 [] [] hlen]
      simp
    · rw [weave_length _ A (insertedPoints_length fp A B none 0 0 0 hlen),
        weave_length _ B ((insertedPoints_length fp A B none 0 0 0 hlen).trans hlen), hlen]
  · refine ⟨A, B, ?_, fun heq => absurd heq hlen, fun _ => ⟨rfl, rfl⟩⟩
    unfold InsertCrossings
    rw [if_pos hlen]

/-- Witness of C16: with the rounding of the program, two lists of three points
that cross twice, and two lists of different sizes. -/
theorem InsertCrossings_keeps_sizes_aligned_witness :
    (∃ A1 B1,
      InsertCrossings ieeeArithmetic [⟨0, 0⟩, ⟨1, 2⟩, ⟨2, 0⟩] [⟨0, 1⟩, ⟨1, 1⟩, ⟨2, 1⟩] =
        some (A1, B1) ∧
      A1.length = B1.length) ∧
    InsertCrossings ieeeArithmetic [⟨0, 0⟩, ⟨1, 2⟩] [⟨0, 1⟩] =
      some ([⟨0, 0⟩, ⟨1, 2⟩], [⟨0, 1⟩]) := by
  constructor
  · obtain ⟨A1, B1, h1, h2, _⟩ :=
      InsertCrossings_keeps_sizes_aligned ieeeArithmetic
        [⟨0, 0⟩, ⟨1, 2⟩, ⟨2, 0⟩] [⟨0, 1⟩, ⟨1, 1⟩, ⟨2, 1⟩]
    exact ⟨A1, B1, h1, h2 rfl⟩
  · obtain ⟨A1, B1, h1, _, h3⟩ :=
      InsertCrossings_keeps_sizes_aligned ieeeArithmetic [⟨0, 0⟩, ⟨1, 2⟩] [⟨0, 1⟩]
    obtain ⟨hA, hB⟩ := h3 (by simp)
    rw [h1, hA, hB]

/-- C17 (exact crossing). Arithmetic is exact. Let `A` and `B` have the same
size, let `a0`, `a2` be the points of `A` at two consecutive indices and `b0`,
`b2` those of `B` at the same indices, with `x0 ≠ x2` for the abscissas
`x0 = a0.m_x` and `x2 = a2.m_x` (which the code reads from `A` for both lists)
and with `a < b` different at the two ends. Then `InsertCrossings` returns the
lists with one and the same point `(x1, y)` between `a0` and `a2` and between
`b0` and `b2`, at the same index; the point lies on both segments,
`y = y0_a + (x1 - x0) / (x2 - x0) * (y2_a - y0_a)
   = y0_b + (x1 - x0) / (x2 - x0) * (y2_b - y0_b)`,
and `x1` lies between `x0` and `x2` inclusive. -/
theorem InsertCrossings_exact_crossing (A B : List Point) (i : Nat) (a0 b0 a2 b2 : Point)
    (hlen : A.length = B.length)
    (hA0 : A.get? i = some a0) (hB0 : B.get? i = some b0)
    (hA2 : A.get? (i + 1) = some a2) (hB2 : B.get? (i + 1) = some b2)
    (hx : a0.m_x ≠ a2.m_x)
    (hcross : decide (a0.m_y < b0.m_y) ≠ decide (a2.m_y < b2.m_y)) :
    ∃ (pt : Point) (preA postA preB postB : List Point),
      InsertCrossings exactArithmetic A B =
        some (preA ++ [a0, pt, a2] ++ postA, preB ++ [b0, pt, b2] ++ postB) ∧
      preA.length = preB.length ∧
      pt = crossingPoint exactArithmetic a0.m_x a0.m_y b0.m_y a2.m_x a2.m_y b2.m_y ∧
      pt.m_y = a0.m_y + (pt.m_x - a0.m_x) / (a2.m_x - a0.m_x) * (a2.m_y - a0.m_y) ∧
      pt.m_y = b0.m_y + (pt.m_x - a0.m_x) / (a2.m_x - a0.m_x) * (b2.m_y - b0.m_y) ∧
      min a0.m_x a2.m_x ≤ pt.m_x ∧ pt.m_x ≤ max a0.m_x a2.m_x := by
  obtain ⟨h1, h2, h3, h4⟩ :=
    crossingPoint_spec a0.m_x a0.m_y b0.m_y a2.m_x a2.m_y b2.m_y hx hcross
  obtain ⟨preA, postA, preB, postB, hA, hB, hpre⟩ :=
    weave_insertedPoints_at exactArithmetic i A B none 0 0 0 a0 b0 a2 b2 hA0 hB0 hA2 hB2 hcross
  refine ⟨crossingPoint exactArithmetic a0.m_x a0.m_y b0.m_y a2.m_x a2.m_y b2.m_y,
    preA, postA, preB, postB, ?_, hpre, rfl, h1, h2, h3, h4⟩
  unfold InsertCrossings
  rw [if_neg (not_not.mpr hlen), InsertCrossingsLoop_eq exactArithmetic A B none 0 0 0 [] [] hlen,
    List.nil_append, List.nil_append, hA, hB]

/-- Witness of C17: `A` goes through `(0, 0)`, `(1, 2)`, `(2, 0)` and `B` stays
at height 1. The lists cross between the indices 0 and 1, where `(1/2, 1)` is
inserted, and again between the indices 1 and 2, right after that insertion:
the point inserted there is `(3/2, 1)`. -/
theorem InsertCrossings_exact_crossing_witness :
    ∃ (pt : Point) (preA postA preB postB : List Point),
      InsertCrossings exactArithmetic [⟨0, 0⟩, ⟨1, 2⟩, ⟨2, 0⟩] [⟨0, 1⟩, ⟨1, 1⟩, ⟨2, 1⟩] =
        some (preA ++ [⟨1, 2⟩, pt, ⟨2, 0⟩] ++ postA, preB ++ [⟨1, 1⟩, pt, ⟨2, 1⟩] ++ postB) ∧
      preA.length = preB.length ∧ pt.m_x = 3 / 2 ∧ pt.m_y = 1 := by
  obtain ⟨pt, preA, postA, preB, postB, h1, h2, h3, _⟩ :=
    InsertCrossings_exact_crossing [⟨0, 0⟩, ⟨1, 2⟩, ⟨2, 0⟩] [⟨0, 1⟩, ⟨1, 1⟩, ⟨2, 1⟩] 1
      ⟨1, 2⟩ ⟨1, 1⟩ ⟨2, 0⟩ ⟨2, 1⟩ rfl rfl rfl rfl rfl (by norm_num) (by norm_num)
  refine ⟨pt, preA, postA, preB, postB, h1, h2, ?_, ?_⟩ <;>
    rw [h3] <;>
    norm_num [crossingPoint, crossingDivisor, exactArithmetic]

/-- C18 (one point per crossing). Whatever the rounding, for lists `A` and `B`
of the same size `n`, `InsertCrossings` returns (the loop terminates) the two
lists with the points of one list `inserted` woven in at the same indices:
nothing before the first index, and before index `i + 1` the crossing point of
the points at `i` and `i + 1` exactly when `A[i].y < B[i].y` changes value
there. Both results have `n + k` points, `k` the number of such changes, and
the original points keep their values and order. -/
theorem InsertCrossings_adds_one_point_per_crossing (fp : Rounding) (A B : List Point)
    (hlen : A.length = B.length) :
    ∃ inserted : List (Option Point),
      InsertCrossings fp A B = some (weave inserted A, weave inserted B) ∧
      inserted.length = A.length ∧
      (∀ first rest, inserted = first :: rest → first = none) ∧
      (∀ (i : Nat) (a0 b0 a2 b2 : Point),
        A.get? i = some a0 → B.get? i = some b0 →
        A.get? (i + 1) = some a2 → B.get? (i + 1) = some b2 →
        inserted.get? (i + 1) =
          some (if decide (a0.m_y < b0.m_y) ≠ decide (a2.m_y < b2.m_y) then
            some (crossingPoint fp a0.m_x a0.m_y b0.m_y a2.m_x a2.m_y b2.m_y) else none)) ∧
      (weave inserted A).length = A.length + changes (belowFlags A B) ∧
      (weave inserted B).length = B.length + changes (belowFlags A B) ∧
      A.Sublist (weave inserted A) ∧ B.Sublist (weave inserted B) := by
  have hins := insertedPoints_length fp A B none 0 0 0 hlen
  have hcount := countP_insertedPoints fp A B none 0 0 0 hlen
  simp only [Option.toList, List.nil_append] at hcount
  refine ⟨insertedPoints fp none 0 0 0 A B, ?_, hins, ?_, ?_, ?_, ?_,
    sublist_weave _ A, sublist_weave _ B⟩
  · unfold InsertCrossings
    rw [if_neg (not_not.mpr hlen), InsertCrossingsLoop_eq fp A B none 0 0 0 [] [] hlen]
    simp
  · intro first rest hfirst
    match A, B, hfirst with
    | a :: as, b :: bs, hfirst =>
      simp only [insertedPoints, isCrossing, Bool.false_eq_true, if_false,
        List.cons.injEq] at hfirst
      exact hfirst.1.symm
  · intro i a0 b0 a2 b2 hA0 hB0 hA2 hB2
    exact insertedPoints_get?_succ fp i A B none 0 0 0 a0 b0 a2 b2 hA0 hB0 hA2 hB2
  · rw [weave_length _ A hins, hcount]
  · rw [weave_length _ B (hins.trans hlen), hcount]

/-- Witness of C18: lists of three points with two changes of `a < b`; the
results have five points. The inserted points are evaluated in exact
arithmetic. -/
theorem InsertCrossings_adds_one_point_per_crossing_witness :
    ∃ inserted : List (Option Point),
      InsertCrossings exactArithmetic [⟨0, 0⟩, ⟨1, 2⟩, ⟨2, 0⟩] [⟨0, 1⟩, ⟨1, 1⟩, ⟨2, 1⟩] =
        some (weave inserted [⟨0, 0⟩, ⟨1, 2⟩, ⟨2, 0⟩], weave inserted [⟨0, 1⟩, ⟨1, 1⟩, ⟨2, 1⟩]) ∧
      inserted.get? 1 = some (some ⟨1 / 2, 1⟩) ∧
      inserted.get? 2 = some (some ⟨3 / 2, 1⟩) ∧
      (weave inserted [⟨0, 0⟩, ⟨1, 2⟩, ⟨2, 0⟩]).length = 5 := by
  obtain ⟨inserted, h1, _, _, h4, h5, _⟩ :=
    InsertCrossings_adds_one_point_per_crossing exactArithmetic
      [⟨0, 0⟩, ⟨1, 2⟩, ⟨2, 0⟩] [⟨0, 1⟩, ⟨1, 1⟩, ⟨2, 1⟩] rfl
  refine ⟨inserted, h1, ?_, ?_, ?_⟩
  · rw [h4 0 ⟨0, 0⟩ ⟨0, 1⟩ ⟨1, 2⟩ ⟨1, 1⟩ rfl rfl rfl rfl]
    norm_num [crossingPoint, crossingDivisor, exactArithmetic]
  · rw [h4 1 ⟨1, 2⟩ ⟨1, 1⟩ ⟨2, 0⟩ ⟨2, 1⟩ rfl rfl rfl rfl]
    norm_num [crossingPoint, crossingDivisor, exactArithmetic]
  · rw [h5]
    norm_num [belowFlags, changes]

/-- C20 (division by zero at a detected crossing). In double precision the
divisor `y2_b - y0_b + y0_a - y2_a` can be zero at a detected crossing. Take
`A` through `(0, 0)` and `(1, 30)` and `B` through `(0, 2^-53)` and `(1, 30)`,
all of them double-precision numbers: `0 < 2^-53` holds and `30 < 30` does not,
so a crossing is detected; `30 - 2^-53` rounds to 30, and the divisor is
`30 + 0 - 30 = 0`. `InsertCrossings` inserts the point computed with that
divisor into both lists. In exact arithmetic the divisor would be `-2^-53`. -/
theorem crossingDivisor_zero_at_crossing :
    ieeeArithmetic.toDouble (1 / 9007199254740992) = 1 / 9007199254740992 ∧
    ieeeArithmetic.toDouble 30 = 30 ∧
    isCrossing (some (decide ((0 : ℚ) < 1 / 9007199254740992))) (decide ((30 : ℚ) < 30)) =
      true ∧
    crossingDivisor ieeeArithmetic 0 (1 / 9007199254740992) 30 30 = 0 ∧
    crossingDivisor exactArithmetic 0 (1 / 9007199254740992) 30 30 =
      -(1 / 9007199254740992) ∧
    InsertCrossings ieeeArithmetic [⟨0, 0⟩, ⟨1, 30⟩] [⟨0, 1 / 9007199254740992⟩, ⟨1, 30⟩] =
      some
        ([⟨0, 0⟩, crossingPoint ieeeArithmetic 0 0 (1 / 9007199254740992) 1 30 30, ⟨1, 30⟩],
         [⟨0, 1 / 9007199254740992⟩,
          crossingPoint ieeeArithmetic 0 0 (1 / 9007199254740992) 1 30 30, ⟨1, 30⟩]) := by
  have hthirty : roundBinary 53 30 = 30 := by
    rw [roundBinary_eq_of_pos 53 _ 4 8444249301319680 (by norm_num) (by norm_num) (by norm_num)
      (by norm_num [abs_lt])]
    norm_num
  have hdiff : roundBinary 53 (30 - 1 / 9007199254740992) = 30 := by
    rw [roundBinary_eq_of_pos 53 _ 4 8444249301319680 (by norm_num) (by norm_num) (by norm_num)
      (by norm_num [abs_lt])]
    norm_num
  refine ⟨?_, hthirty, ?_, ?_, ?_, ?_⟩
  · show roundBinary 53 (1 / 9007199254740992) = 1 / 9007199254740992
    rw [roundBinary_eq_of_pos 53 _ (-53) 4503599627370496 (by norm_num) (by norm_num)
      (by norm_num) (by norm_num [abs_lt])]
    norm_num
  · norm_num [isCrossing]
  · show roundBinary 53 (roundBinary 53 (roundBinary 53 (30 - 1 / 9007199254740992) + 0) - 30) = 0
    rw [hdiff, add_zero, hthirty, sub_self, roundBinary_zero]
  · norm_num [crossingDivisor, exactArithmetic]
  · unfold InsertCrossings
    rw [if_neg (by simp), InsertCrossingsLoop_eq ieeeArithmetic [⟨0, 0⟩, ⟨1, 30⟩]
      [⟨0, 1 / 9007199254740992⟩, ⟨1, 30⟩] none 0 0 0 [] [] rfl]
    norm_num [insertedPoints, weave, isCrossing]

/-! ## Visible range of a segment -/

/-- The counters of the transform, started at any values. -/
theorem countInvisible_foldl (width : Int) (xs : List ℚ) :
    ∀ counters : Int × Int,
      xs.foldl
        (fun counters x =>
          (if x < 0 then counters.1 + 1 else counters.1,
            if x < (width : ℚ) then counters.2 + 1 else counters.2))
        counters =
      (counters.1 + (xs.countP (fun x => decide (x < 0)) : Nat),
        counters.2 + (xs.countP (fun x => decide (x < (width : ℚ))) : Nat)) := by
  induction xs with
  | nil => intro counters; simp
  | cons x xs ih =>
    intro counters
    rw [List.foldl_cons, ih]
    by_cases h0 : x < 0 <;> by_cases hw : x < (width : ℚ) <;>
      simp [List.countP_cons, h0, hw] <;> omega

/-- The counters are the numbers of positions `x < 0` and `x < width`. -/
theorem countInvisible_eq (width : Int) (xs : List ℚ) :
    countInvisible width xs =
      (((xs.countP (fun x => decide (x < 0)) : Nat) : Int),
        ((xs.countP (fun x => decide (x < (width : ℚ))) : Nat) : Int)) := by
  unfold countInvisible
  rw [countInvisible_foldl]
  simp

/-- For a non-negative width a position left of the panel is left of its right
edge, so the first counter is at most the second. -/
theorem countP_left_le_right (width : Int) (hw : 0 ≤ width) (xs : List ℚ) :
    xs.countP (fun x => decide (x < 0)) ≤ xs.countP (fun x => decide (x < (width : ℚ))) := by
  apply List.countP_mono_left
  intro x _ hx
  have hwq : (0 : ℚ) ≤ (width : ℚ) := by exact_mod_cast hw
  simp only [decide_eq_true_eq] at hx ⊢
  linarith

/-- The visible range in natural numbers: `max (L - 1) 0` is the truncated
difference `L - 1`. -/
theorem visibleRange_eq (width : Int) (xs : List ℚ) :
    visibleRange width xs =
      (((xs.countP (fun x => decide (x < 0)) - 1 : Nat) : Int),
        ((min (xs.countP (fun x => decide (x < (width : ℚ))) + 1) xs.length : Nat) : Int)) := by
  have hRn : xs.countP (fun x => decide (x < (width : ℚ))) ≤ xs.length := List.countP_le_length _
  unfold visibleRange
  rw [countInvisible_eq]
  simp only [Prod.mk.injEq]
  constructor <;> omega

/-- Both erasures are within bounds and keep the positions from index `L - 1`
up to index `min (R + 1) n`. -/
theorem trimToVisible_eq (width : Int) (hw : 0 ≤ width) (xs : List ℚ) :
    trimToVisible width xs =
      some ((xs.take (min (xs.countP (fun x => decide (x < (width : ℚ))) + 1) xs.length)).drop
        (xs.countP (fun x => decide (x < 0)) - 1)) := by
  have hLR := countP_left_le_right width hw xs
  have hRn : xs.countP (fun x => decide (x < (width : ℚ))) ≤ xs.length := List.countP_le_length _
  unfold trimToVisible
  rw [visibleRange_eq width xs]
  simp only [eraseRange]
  rw [if_pos (by omega)]
  simp only [Int.toNat_ofNat, List.drop_length, List.append_nil]
  rw [if_pos (by simp only [List.length_take]; omega)]
  simp

/-- Reading as many packets as there are positions, from an index that leaves
room for them, stays within the segment. -/
theorem readSegment_of_le (segment : List Packet) (xs : List ℚ) :
    ∀ n : Nat, n + xs.length ≤ segment.length →
      ∃ read, readSegment segment (n : Int) xs = some read ∧ read.length = xs.length := by
  induction xs with
  | nil => intro n _; exact ⟨[], rfl, rfl⟩
  | cons x xs ih =>
    intro n hn
    simp only [List.length_cons] at hn
    obtain ⟨rest, hrest, hlen⟩ := ih (n + 1) (by omega)
    have hget : ∃ packet, segment.get? n = some packet := by
      cases hg : segment.get? n with
      | some packet => exact ⟨packet, rfl⟩
      | none =>
        rw [List.get?_eq_none] at hg
        omega
    obtain ⟨packet, hpacket⟩ := hget
    refine ⟨(x, packet) :: rest, ?_, by simp [hlen]⟩
    have hcast : ((n : Int) + 1) = ((n + 1 : Nat) : Int) := by push_cast; rfl
    simp only [readSegment, Int.toNat_ofNat, hpacket, hcast, hrest]
    simp

/-- On lists of equal size `InsertCrossings` returns. -/
theorem InsertCrossings_isSome (fp : Rounding) (A B : List Point)
    (hlen : A.length = B.length) :
    ∃ crossed, InsertCrossings fp A B = some crossed := by
  unfold InsertCrossings
  rw [if_neg (not_not.mpr hlen), InsertCrossingsLoop_eq fp A B none 0 0 0 [] [] hlen]
  exact ⟨_, rfl⟩

/-- For a non-negative width the body of the segment loop performs no erasure
and no read out of bounds. -/
theorem paintSegment_isSome (fp : Rounding) (maxTimeSeconds dbPerPixel : ℚ) (width : Int)
    (mShowOvershoot mShowUndershoot : Bool) (sync : ClockSynchronization)
    (segment : List Packet) (hw : 0 ≤ width) :
    ∃ plot, paintSegment fp maxTimeSeconds dbPerPixel width mShowOvershoot mShowUndershoot sync
      segment = some plot := by
  unfold paintSegment
  simp only
  have hlen : (segment.map (fun packet =>
      GetDisplayPixel fp maxTimeSeconds (elapsedSincePacket sync packet) width)).length =
        segment.length := List.length_map _ _
  generalize segment.map (fun packet =>
      GetDisplayPixel fp maxTimeSeconds (elapsedSincePacket sync packet) width) = xs at hlen ⊢
  have hLR := countP_left_le_right width hw xs
  have hLn : xs.countP (fun x => decide (x < 0)) ≤ xs.length := List.countP_le_length _
  rw [trimToVisible_eq width hw, visibleRange_eq]
  simp only
  split
  · exact ⟨_, rfl⟩
  · obtain ⟨read, hread, _⟩ := readSegment_of_le segment
      ((xs.take (min (xs.countP (fun x => decide (x < (width : ℚ))) + 1) xs.length)).drop
        (xs.countP (fun x => decide (x < 0)) - 1))
      (xs.countP (fun x => decide (x < 0)) - 1)
      (by
        simp only [List.length_drop, List.length_take]
        omega)
    rw [hread]
    simp only
    split
    · obtain ⟨crossed, hcrossed⟩ := InsertCrossings_isSome fp
        (read.map (fun r => { m_x := r.1, m_y := -r.2.follower / dbPerPixel : Point }))
        (read.map (fun r => { m_x := r.1, m_y := -r.2.target / dbPerPixel : Point }))
        (by simp)
      rw [hcrossed]
      exact ⟨_, rfl⟩
    · exact ⟨_, rfl⟩


/-- A non-decreasing list is its elements below `c` followed by the others. -/
theorem pairwise_filter_split (c : ℚ) :
    ∀ xs : List ℚ, xs.Pairwise (fun x y => x ≤ y) →
      xs = xs.filter (fun x => decide (x < c)) ++ xs.filter (fun x => decide (c ≤ x)) := by
  intro xs
  induction xs with
  | nil => intro _; rfl
  | cons a as ih =>
    intro hs
    rw [List.pairwise_cons] at hs
    obtain ⟨ha, has⟩ := hs
    by_cases hac : a < c
    · have hnot : ¬ c ≤ a := not_le.mpr hac
      simp only [List.filter_cons, hac, hnot, decide_True, decide_False, if_true,
        Bool.false_eq_true, if_false, List.cons_append]
      rw [← ih has]
    · have hca : c ≤ a := not_lt.mp hac
      have hnil : as.filter (fun x => decide (x < c)) = [] := by
        rw [List.filter_eq_nil_iff]
        intro x hx
        have := ha x hx
        simp only [decide_eq_true_eq, not_lt]
        linarith
      have hall : as.filter (fun x => decide (c ≤ x)) = as := by
        rw [List.filter_eq_self]
        intro x hx
        have := ha x hx
        simp only [decide_eq_true_eq]
        linarith
      simp [List.filter_cons, hac, hca, hnil, hall]

/-- Trimming a list made of three parts to one element before and one after the
middle part. -/
theorem take_drop_of_parts (A B C : List ℚ) :
    ((A ++ (B ++ C)).take (min (A.length + B.length + 1) (A ++ (B ++ C)).length)).drop
        (A.length - 1) =
      A.drop (A.length - 1) ++ (B ++ C.take 1) := by
  have htake : (A ++ (B ++ C)).take (min (A.length + B.length + 1) (A ++ (B ++ C)).length) =
      A ++ (B ++ C.take 1) := by
    cases C with
    | nil => simp
    | cons c cs =>
      have hmin : min (A.length + B.length + 1) (A ++ (B ++ c :: cs)).length =
          A.length + (B.length + 1) := by
        simp only [List.length_append, List.length_cons]
        omega
      rw [hmin, List.take_append, List.take_append]
  rw [htake, List.drop_append_of_le_length (by omega)]

/-- The trimmed positions of a list made of the positions left of the panel,
those on it and those right of it. -/
theorem trimmed_of_parts (w : ℚ) (hw : 0 ≤ w) (A B C : List ℚ)
    (hA : ∀ x ∈ A, x < 0) (hB : ∀ x ∈ B, 0 ≤ x ∧ x < w) (hC : ∀ x ∈ C, w ≤ x) :
    ∃ l r,
      ((A ++ (B ++ C)).take
          (min ((A ++ (B ++ C)).countP (fun x => decide (x < w)) + 1)
            (A ++ (B ++ C)).length)).drop
        ((A ++ (B ++ C)).countP (fun x => decide (x < 0)) - 1) =
        l ++ (A ++ (B ++ C)).filter (fun x => decide (0 ≤ x ∧ x < w)) ++ r ∧
      l.length ≤ 1 ∧ r.length ≤ 1 ∧ (∀ x ∈ l, x < 0) ∧ (∀ x ∈ r, w ≤ x) := by
  have hL : (A ++ (B ++ C)).countP (fun x => decide (x < 0)) = A.length := by
    rw [List.countP_append, List.countP_append]
    have h1 : A.countP (fun x => decide (x < 0)) = A.length := by
      rw [List.countP_eq_length]
      intro x hx
      simpa using hA x hx
    have h2 : B.countP (fun x => decide (x < 0)) = 0 := by
      rw [List.countP_eq_zero]
      intro x hx
      simpa using (hB x hx).1
    have h3 : C.countP (fun x => decide (x < 0)) = 0 := by
      rw [List.countP_eq_zero]
      intro x hx
      have := hC x hx
      simp only [decide_eq_true_eq, not_lt]
      linarith
    omega
  have hR : (A ++ (B ++ C)).countP (fun x => decide (x < w)) = A.length + B.length := by
    rw [List.countP_append, List.countP_append]
    have h1 : A.countP (fun x => decide (x < w)) = A.length := by
      rw [List.countP_eq_length]
      intro x hx
      have := hA x hx
      simp only [decide_eq_true_eq]
      linarith
    have h2 : B.countP (fun x => decide (x < w)) = B.length := by
      rw [List.countP_eq_length]
      intro x hx
      simpa using (hB x hx).2
    have h3 : C.countP (fun x => decide (x < w)) = 0 := by
      rw [List.countP_eq_zero]
      intro x hx
      simpa using hC x hx
    omega
  have hV : (A ++ (B ++ C)).filter (fun x => decide (0 ≤ x ∧ x < w)) = B := by
    rw [List.filter_append, List.filter_append]
    have h1 : A.filter (fun x => decide (0 ≤ x ∧ x < w)) = [] := by
      rw [List.filter_eq_nil_iff]
      intro x hx
      have := hA x hx
      simp only [decide_eq_true_eq, not_and, not_lt]
      intro h0
      linarith
    have h2 : B.filter (fun x => decide (0 ≤ x ∧ x < w)) = B := by
      rw [List.filter_eq_self]
      intro x hx
      simpa using hB x hx
    have h3 : C.filter (fun x => decide (0 ≤ x ∧ x < w)) = [] := by
      rw [List.filter_eq_nil_iff]
      intro x hx
      have := hC x hx
      simp only [decide_eq_true_eq, not_and, not_lt]
      intro _
      exact this
    rw [h1, h2, h3]
    simp
  refine ⟨A.drop (A.length - 1), C.take 1, ?_, ?_, ?_, ?_, ?_⟩
  · rw [hL, hR, hV, take_drop_of_parts]
    simp
  · simp only [List.length_drop]
    omega
  · simp only [List.length_take]
    omega
  · intro x hx
    exact hA x (List.mem_of_mem_drop hx)
  · intro x hx
    exact hC x (List.mem_of_mem_take hx)

/-- The trimmed positions of a non-decreasing list: the visible ones, with at
most one position before and one after. -/
theorem trimmed_of_pairwise (w : ℚ) (hw : 0 ≤ w) (xs : List ℚ)
    (hs : xs.Pairwise (fun x y => x ≤ y)) :
    ∃ l r,
      (xs.take (min (xs.countP (fun x => decide (x < w)) + 1) xs.length)).drop
        (xs.countP (fun x => decide (x < 0)) - 1) =
        l ++ xs.filter (fun x => decide (0 ≤ x ∧ x < w)) ++ r ∧
      l.length ≤ 1 ∧ r.length ≤ 1 ∧ (∀ x ∈ l, x < 0) ∧ (∀ x ∈ r, w ≤ x) := by
  have h1 := pairwise_filter_split 0 xs hs
  have hT : (xs.filter (fun x => decide ((0 : ℚ) ≤ x))).Pairwise (fun x y => x ≤ y) :=
    hs.filter _
  have h2 := pairwise_filter_split w _ hT
  have hxs : xs = xs.filter (fun x => decide (x < 0)) ++
      ((xs.filter (fun x => decide ((0 : ℚ) ≤ x))).filter (fun x => decide (x < w)) ++
        (xs.filter (fun x => decide ((0 : ℚ) ≤ x))).filter (fun x => decide (w ≤ x))) := by
    rw [← h2]
    exact h1
  have hparts := trimmed_of_parts w hw
    (xs.filter (fun x => decide (x < 0)))
    ((xs.filter (fun x => decide ((0 : ℚ) ≤ x))).filter (fun x => decide (x < w)))
    ((xs.filter (fun x => decide ((0 : ℚ) ≤ x))).filter (fun x => decide (w ≤ x)))
    (by
      intro x hx
      simpa using (List.mem_filter.mp hx).2)
    (by
      intro x hx
      obtain ⟨hx1, hx2⟩ := List.mem_filter.mp hx
      exact ⟨by simpa using (List.mem_filter.mp hx1).2, by simpa using hx2⟩)
    (by
      intro x hx
      simpa using (List.mem_filter.mp hx).2)
  rw [← hxs] at hparts
  exact hparts


/-- With a rounding that is monotone and keeps zero, a later packet is not
placed further left. -/
theorem GetDisplayPixel_mono_packet (fp : Rounding) (maxTimeSeconds : ℚ) (width : Int)
    (sync : ClockSynchronization) (p q : Packet)
    (hmax : 0 < maxTimeSeconds) (hw : 0 < width)
    (hfloat : ∀ x y, x ≤ y → fp.toFloat x ≤ fp.toFloat y)
    (hdouble : ∀ x y, x ≤ y → fp.toDouble x ≤ fp.toDouble y)
    (hzero : fp.toDouble 0 = 0) (htime : p.time ≤ q.time) :
    GetDisplayPixel fp maxTimeSeconds (elapsedSincePacket sync p) width ≤
      GetDisplayPixel fp maxTimeSeconds (elapsedSincePacket sync q) width := by
  apply GetDisplayPixel_mono_time fp maxTimeSeconds width _ _ hmax hw hfloat hdouble hzero
  unfold elapsedSincePacket
  linarith

/-- C19 (visible-range trimming). For a segment of `n` packets and a panel
width of at least 1, with `xs` the pixel positions of the packets, `L` the
number of positions `x < 0` and `R` the number of positions `x < width`: the
range kept is `[max (L - 1) 0, min (R + 1) n)`, with
`0 ≤ max (L - 1) 0 ≤ min (R + 1) n ≤ n`; both erasures succeed and keep the
positions of that range, every read `segment[segmentIndex]` is in bounds, and
the body of the segment loop returns, whatever the rounding of the
floating-point operations. When `maxTimeSeconds` is positive, the rounding is
monotone and keeps zero (as exact arithmetic and the rounding of the program
do) and the packet times are non-decreasing, the positions kept are all the
positions with `0 ≤ x < width`, preceded by at most one position `x < 0` and
followed by at most one position `x ≥ width`. -/
theorem OnPaint_visible_range (fp : Rounding) (maxTimeSeconds dbPerPixel : ℚ) (width : Int)
    (mShowOvershoot mShowUndershoot : Bool) (sync : ClockSynchronization)
    (segment : List Packet) (xs : List ℚ) (L R : Nat)
    (hw : 1 ≤ width)
    (hxs : xs = segment.map
      (fun packet => GetDisplayPixel fp maxTimeSeconds (elapsedSincePacket sync packet) width))
    (hL : L = xs.countP (fun x => decide (x < 0)))
    (hR : R = xs.countP (fun x => decide (x < (width : ℚ)))) :
    visibleRange width xs =
      (max ((L : Int) - 1) 0, min ((R : Int) + 1) (segment.length : Int)) ∧
    0 ≤ (visibleRange width xs).1 ∧
    (visibleRange width xs).1 ≤ (visibleRange width xs).2 ∧
    (visibleRange width xs).2 ≤ (segment.length : Int) ∧
    trimToVisible width xs =
      some ((xs.take (visibleRange width xs).2.toNat).drop (visibleRange width xs).1.toNat) ∧
    (∃ read, readSegment segment (visibleRange width xs).1
      ((xs.take (visibleRange width xs).2.toNat).drop (visibleRange width xs).1.toNat) =
        some read) ∧
    (∃ plot, paintSegment fp maxTimeSeconds dbPerPixel width mShowOvershoot mShowUndershoot sync
      segment = some plot) ∧
    (0 < maxTimeSeconds →
      (∀ x y, x ≤ y → fp.toFloat x ≤ fp.toFloat y) →
      (∀ x y, x ≤ y → fp.toDouble x ≤ fp.toDouble y) → fp.toDouble 0 = 0 →
      segment.Pairwise (fun p q => p.time ≤ q.time) →
      ∃ l r,
        (xs.take (visibleRange width xs).2.toNat).drop (visibleRange width xs).1.toNat =
          l ++ xs.filter (fun x => decide (0 ≤ x ∧ x < (width : ℚ))) ++ r ∧
        l.length ≤ 1 ∧ r.length ≤ 1 ∧ (∀ x ∈ l, x < 0) ∧ (∀ x ∈ r, (width : ℚ) ≤ x)) := by
  have hw0 : 0 ≤ width := by omega
  have hlen : xs.length = segment.length := by rw [hxs, List.length_map]
  have hLR : L ≤ R := by
    rw [hL, hR]
    exact countP_left_le_right width hw0 xs
  have hRn : R ≤ xs.length := by
    rw [hR]
    exact List.countP_le_length _
  have hrange := visibleRange_eq width xs
  rw [← hL, ← hR] at hrange
  have htrim := trimToVisible_eq width hw0 xs
  rw [← hL, ← hR] at htrim
  have h1 : (visibleRange width xs).1 = ((L - 1 : Nat) : Int) := by rw [hrange]
  have h2 : (visibleRange width xs).2 = ((min (R + 1) xs.length : Nat) : Int) := by rw [hrange]
  rw [h1, h2]
  simp only [Int.toNat_ofNat]
  refine ⟨?_, ?_, ?_, ?_, htrim, ?_, ?_, ?_⟩
  · rw [hrange, ← hlen]
    simp only [Prod.mk.injEq]
    constructor <;> omega
  · omega
  · omega
  · omega
  · obtain ⟨read, hread, _⟩ := readSegment_of_le segment
      ((xs.take (min (R + 1) xs.length)).drop (L - 1)) (L - 1)
      (by
        simp only [List.length_drop, List.length_take]
        omega)
    exact ⟨read, hread⟩
  · exact paintSegment_isSome fp maxTimeSeconds dbPerPixel width mShowOvershoot
      mShowUndershoot sync segment hw0
  · intro hmax hfloat hdouble hzero hsorted
    have hpair : xs.Pairwise (fun x y => x ≤ y) := by
      rw [hxs]
      exact List.Pairwise.map _
        (fun p q hpq =>
          GetDisplayPixel_mono_packet fp maxTimeSeconds width sync p q hmax (by omega)
            hfloat hdouble hzero hpq)
        hsorted
    have hwq : (0 : ℚ) ≤ (width : ℚ) := by exact_mod_cast hw0
    have hparts := trimmed_of_pairwise (width : ℚ) hwq xs hpair
    rw [← hL, ← hR] at hparts
    exact hparts

/-- Witness of C19: a panel 10 pixels wide, a window of 2.5 s, three seconds
after the start, in exact arithmetic. The six packets are placed at -2.2, -1.2, 1.8, 9.8, 11.8 and
13.8; the range kept is `[1, 5)`. -/
theorem OnPaint_visible_range_witness :
    visibleRange 10 [-11 / 5, -6 / 5, 9 / 5, 49 / 5, 59 / 5, 69 / 5] = (1, 5) ∧
    trimToVisible 10 [-11 / 5, -6 / 5, 9 / 5, 49 / 5, 59 / 5, 69 / 5] =
      some [-6 / 5, 9 / 5, 49 / 5, 59 / 5] ∧
    (∃ plot, paintSegment exactArithmetic (5 / 2) (1 / 5) 10 true true samplePaintSync
      sampleSegment = some plot) ∧
    ∃ l r, [-6 / 5, 9 / 5, 49 / 5, 59 / 5] = l ++ [9 / 5, 49 / 5] ++ r ∧
      l.length ≤ 1 ∧ r.length ≤ 1 ∧ (∀ x ∈ l, x < 0) ∧ (∀ x ∈ r, ((10 : Int) : ℚ) ≤ x) := by
  obtain ⟨h1, _, _, _, h5, _, h7, h8⟩ :=
    OnPaint_visible_range exactArithmetic (5 / 2) (1 / 5) 10 true true samplePaintSync
      sampleSegment
      [-11 / 5, -6 / 5, 9 / 5, 49 / 5, 59 / 5, 69 / 5] 2 4 (by decide)
      (by
        norm_num [sampleSegment, samplePacket, GetDisplayPixel, elapsedSincePacket,
          elapsedTimeSinceFirstPacket, ticksPerSecond, displayDelay, samplePaintSync,
          exactArithmetic])
      (by norm_num [List.countP_cons])
      (by norm_num [List.countP_cons])
  have hrange : visibleRange 10 [-11 / 5, -6 / 5, 9 / 5, 49 / 5, 59 / 5, 69 / 5] = (1, 5) := by
    rw [h1]
    simp [sampleSegment]
  have hfilter : List.filter (fun x : ℚ => decide (0 ≤ x ∧ x < ((10 : Int) : ℚ)))
      [-11 / 5, -6 / 5, 9 / 5, 49 / 5, 59 / 5, 69 / 5] = [9 / 5, 49 / 5] := by
    norm_num [List.filter_cons]
  rw [hrange] at h5 h8
  obtain ⟨l, r, hlr⟩ := h8 (by norm_num) (fun _ _ hxy => hxy) (fun _ _ hxy => hxy) rfl
    (by simp [sampleSegment, samplePacket]; norm_num)
  rw [hfilter] at hlr
  refine ⟨hrange, ?_, h7, l, r, ?_⟩
  · rw [h5]
    simp
  · simpa using hlr

/-! ## Decibel range -/

/-- C21 (decibel range). For a positive `minHeight` and a non-negative
`minRangeDb`: `GetDbRange(height) = max(1, height / minHeight) * minRangeDb`;
it equals `minRangeDb` for every `height ≤ minHeight`, is never below
`minRangeDb`, is non-decreasing in the height, and for `height ≥ minHeight`
the ratio `GetDbRange(height) / height`, which is `dbPerPixel` in `OnPaint`,
is the constant `minRangeDb / minHeight`. -/
theorem GetDbRange_scales_with_height (minHeight : Int) (minRangeDb : ℚ)
    (height height1 : Int) (hmin : 0 < minHeight) (hdb : 0 ≤ minRangeDb) :
    GetDbRange minHeight minRangeDb height =
      max 1 ((height : ℚ) / (minHeight : ℚ)) * minRangeDb ∧
    (height ≤ minHeight → GetDbRange minHeight minRangeDb height = minRangeDb) ∧
    minRangeDb ≤ GetDbRange minHeight minRangeDb height ∧
    (height ≤ height1 →
      GetDbRange minHeight minRangeDb height ≤ GetDbRange minHeight minRangeDb height1) ∧
    (minHeight ≤ height →
      GetDbRange minHeight minRangeDb height / (height : ℚ) =
        minRangeDb / (minHeight : ℚ)) := by
  have hminq : (0 : ℚ) < (minHeight : ℚ) := by exact_mod_cast hmin
  have hformula : ∀ h : Int, GetDbRange minHeight minRangeDb h =
      max 1 ((h : ℚ) / (minHeight : ℚ)) * minRangeDb := by
    intro h
    simp [GetDbRange]
  refine ⟨hformula height, ?_, ?_, ?_, ?_⟩
  · intro hle
    have hleq : (height : ℚ) ≤ (minHeight : ℚ) := by exact_mod_cast hle
    rw [hformula, max_eq_left ((div_le_one hminq).mpr hleq), one_mul]
  · rw [hformula]
    have hone : (1 : ℚ) ≤ max 1 ((height : ℚ) / (minHeight : ℚ)) := le_max_left _ _
    have := mul_le_mul_of_nonneg_right hone hdb
    linarith
  · intro hle
    have hleq : (height : ℚ) ≤ (height1 : ℚ) := by exact_mod_cast hle
    rw [hformula, hformula]
    apply mul_le_mul_of_nonneg_right _ hdb
    exact max_le_max (le_refl 1) (div_le_div_of_nonneg_right hleq (le_of_lt hminq))
  · intro hle
    have hleq : (minHeight : ℚ) ≤ (height : ℚ) := by exact_mod_cast hle
    have hpos : (0 : ℚ) < (height : ℚ) := lt_of_lt_of_le hminq hleq
    rw [hformula, max_eq_right ((one_le_div hminq).mpr hleq)]
    field_simp
    ring

/-- Witness of C21: `minHeight = 100` and `minRangeDb = 20`. A panel 80 pixels
high has a range of 20 dB, one 250 pixels high a range of 50 dB, that is 0.2 dB
per pixel, and one 300 pixels high a larger range. -/
theorem GetDbRange_scales_with_height_witness :
    GetDbRange 100 20 80 = 20 ∧
    GetDbRange 100 20 250 = 50 ∧
    (20 : ℚ) ≤ GetDbRange 100 20 250 ∧
    GetDbRange 100 20 250 ≤ GetDbRange 100 20 300 ∧
    GetDbRange 100 20 250 / ((250 : Int) : ℚ) = 20 / ((100 : Int) : ℚ) := by
  obtain ⟨_, h2, _, _, _⟩ :=
    GetDbRange_scales_with_height 100 20 80 80 (by decide) (by norm_num)
  obtain ⟨h1, _, h3, h4, h5⟩ :=
    GetDbRange_scales_with_height 100 20 250 300 (by decide) (by norm_num)
  refine ⟨h2 (by decide), ?_, h3, h4 (by decide), h5 (by decide)⟩
  rw [h1]
  norm_num

end DynamicRangeProcessorHistoryPanel
